import Mathlib

/-!
Verification of the bidirectional sync engine (`src/google-drive/src/sync.js`).

The engine is embedded shallowly: every function below mirrors the control
flow of the corresponding JavaScript function.  Timestamps are epoch
milliseconds; the remote store reports its modification time as an ISO
string that the code immediately parses with `new Date(...).getTime()`, so
`RemoteFile.modifiedTime` holds the parsed integer directly.  Filesystem and
Drive effects are represented by an explicit `Effect` trace, and fallibility
of the external store by boolean failure oracles in `DriveEnv`.
-/

set_option autoImplicit false

namespace GDriveSync

/-- A local file entry produced by `scanLocalDirectory`. -/
structure LocalFile where
  name : String
  path : String
  size : Int
  modifiedTime : Int
deriving DecidableEq, Repr

/-- A remote file entry produced by `scanDriveFolder`; `modifiedTime` is the
parsed epoch-ms value of the ISO timestamp the store reports. -/
structure RemoteFile where
  id : String
  name : String
  path : String
  size : Int
  modifiedTime : Int
deriving DecidableEq, Repr

/-- A folder entry (local or remote); `id` is `none` for local folders. -/
structure FolderEntry where
  id : Option String
  name : String
  path : String
deriving DecidableEq, Repr

/-- The output contract of both tree scanners. -/
structure LocalFileSet where
  files : List LocalFile
  folders : List FolderEntry
deriving DecidableEq, Repr

/-- The remote scanner output. -/
structure RemoteFileSet where
  files : List RemoteFile
  folders : List FolderEntry
deriving DecidableEq, Repr

/-- One per-path record of the sidecar sync state. -/
structure StateRec where
  path : String
  modifiedTime : Int
  localSize : Option Int
  remoteId : Option String
deriving DecidableEq, Repr

/-- The sidecar sync state (`.gdrive-sync-state.json`). -/
structure SyncState where
  lastSync : Option String
  files : List StateRec
deriving DecidableEq, Repr

/-- `new Map(list.map(f => [f.path, f])).get(p)`: lookup by path. -/
def findByPath {α : Type} (pathOf : α → String) (l : List α) (p : String) : Option α :=
  l.find? (fun x => pathOf x == p)

/-- `localByPath.get(p)` in `compareFileSets`. -/
def findLocal (l : List LocalFile) (p : String) : Option LocalFile :=
  findByPath LocalFile.path l p

/-- `remoteByPath.get(p)` in `compareFileSets`. -/
def findRemote (l : List RemoteFile) (p : String) : Option RemoteFile :=
  findByPath RemoteFile.path l p

/-- `stateByPath.get(p)` in `compareFileSets`. -/
def findState (l : List StateRec) (p : String) : Option StateRec :=
  findByPath StateRec.path l p

/-- A conflict entry pushed by `compareFileSets` (the two redundant ISO
strings of the source record are omitted; they repeat the two times). -/
structure ConflictEntry where
  path : String
  localFile : LocalFile
  remoteFile : RemoteFile
deriving DecidableEq, Repr

/-- An `inSync` entry pushed by `compareFileSets`. -/
structure InSyncEntry where
  path : String
  localFile : LocalFile
  remoteFile : RemoteFile
deriving DecidableEq, Repr

/-- The classified action sets returned by `compareFileSets`. -/
structure Comparison where
  toUpload : List LocalFile
  toDownload : List RemoteFile
  onlyLocal : List LocalFile
  onlyRemote : List RemoteFile
  conflicts : List ConflictEntry
  inSync : List InSyncEntry
deriving DecidableEq, Repr

/-- The empty `result` object that `compareFileSets` starts from. -/
def emptyComparison : Comparison :=
  { toUpload := [], toDownload := [], onlyLocal := [], onlyRemote := []
    conflicts := [], inSync := [] }

/-- The body of the `for (const [path, localFile] of localByPath)` loop of
`compareFileSets` (sync.js lines 246-296), acting on the accumulated result. -/
def processLocalFile (remoteFiles : List RemoteFile) (stateFiles : List StateRec)
    (acc : Comparison) (lf : LocalFile) : Comparison :=
  match findRemote remoteFiles lf.path with
  | none =>
    match findState stateFiles lf.path with
    | some _ => { acc with onlyLocal := acc.onlyLocal ++ [lf] }
    | none => { acc with toUpload := acc.toUpload ++ [lf] }
  | some rf =>
    match findState stateFiles lf.path with
    | some sr =>
      if lf.modifiedTime > sr.modifiedTime + 1000 ∧ rf.modifiedTime > sr.modifiedTime + 1000 then
        { acc with conflicts := acc.conflicts ++ [⟨lf.path, lf, rf⟩] }
      else if lf.modifiedTime > sr.modifiedTime + 1000 then
        { acc with toUpload := acc.toUpload ++ [lf] }
      else if rf.modifiedTime > sr.modifiedTime + 1000 then
        { acc with toDownload := acc.toDownload ++ [rf] }
      else
        { acc with inSync := acc.inSync ++ [⟨lf.path, lf, rf⟩] }
    | none =>
      if |lf.modifiedTime - rf.modifiedTime| < 1000 then
        { acc with inSync := acc.inSync ++ [⟨lf.path, lf, rf⟩] }
      else if lf.modifiedTime > rf.modifiedTime then
        { acc with toUpload := acc.toUpload ++ [lf] }
      else
        { acc with toDownload := acc.toDownload ++ [rf] }

/-- The body of the `for (const [path, remoteFile] of remoteByPath)` loop of
`compareFileSets` (sync.js lines 299-310). -/
def processRemoteFile (localFiles : List LocalFile) (stateFiles : List StateRec)
    (acc : Comparison) (rf : RemoteFile) : Comparison :=
  if (findLocal localFiles rf.path).isSome then acc
  else
    match findState stateFiles rf.path with
    | some _ => { acc with onlyRemote := acc.onlyRemote ++ [rf] }
    | none => { acc with toDownload := acc.toDownload ++ [rf] }

/-- `SyncClient.compareFileSets` (sync.js lines 231-313). -/
def compareFileSets (localSet : LocalFileSet) (remoteSet : RemoteFileSet)
    (state : SyncState) : Comparison :=
  let afterLocal :=
    localSet.files.foldl (processLocalFile remoteSet.files state.files) emptyComparison
  remoteSet.files.foldl (processRemoteFile localSet.files state.files) afterLocal

/-- The classification a single path receives from `compareFileSets`. -/
inductive FileClass
  | toUpload
  | toDownload
  | onlyLocal
  | onlyRemote
  | conflict
  | inSync
  | absent
deriving DecidableEq, Repr

/-- The class the local-files loop assigns to a locally present file; the
branch structure mirrors `processLocalFile`. -/
def localFileClass (remoteFiles : List RemoteFile) (stateFiles : List StateRec)
    (lf : LocalFile) : FileClass :=
  match findRemote remoteFiles lf.path with
  | none =>
    match findState stateFiles lf.path with
    | some _ => .onlyLocal
    | none => .toUpload
  | some rf =>
    match findState stateFiles lf.path with
    | some sr =>
      if lf.modifiedTime > sr.modifiedTime + 1000 ∧ rf.modifiedTime > sr.modifiedTime + 1000 then
        .conflict
      else if lf.modifiedTime > sr.modifiedTime + 1000 then .toUpload
      else if rf.modifiedTime > sr.modifiedTime + 1000 then .toDownload
      else .inSync
    | none =>
      if |lf.modifiedTime - rf.modifiedTime| < 1000 then .inSync
      else if lf.modifiedTime > rf.modifiedTime then .toUpload
      else .toDownload

/-- The classification of an arbitrary path under `compareFileSets`. -/
def classifyPath (localFiles : List LocalFile) (remoteFiles : List RemoteFile)
    (stateFiles : List StateRec) (p : String) : FileClass :=
  match findLocal localFiles p with
  | some lf => localFileClass remoteFiles stateFiles lf
  | none =>
    match findRemote remoteFiles p with
    | some _ => if (findState stateFiles p).isSome then .onlyRemote else .toDownload
    | none => .absent

/-- `s.startsWith(p)` on character lists. -/
def chStarts : List Char → List Char → Bool
  | _, [] => true
  | [], _ :: _ => false
  | a :: s, b :: p => a == b && chStarts s p

/-- `path.startsWith(p)`. -/
def strStarts (s p : String) : Bool := chStarts s.data p.data

/-- `path.endsWith(p)`. -/
def strEnds (s p : String) : Bool := chStarts s.data.reverse p.data.reverse

/-- `s.includes(p)` on character lists. -/
def chHasSub : List Char → List Char → Bool
  | [], p => chStarts [] p
  | a :: s, p => chStarts (a :: s) p || chHasSub s p

/-- `path.includes(p)`. -/
def strHasSub (s p : String) : Bool := chHasSub s.data p.data

/-- `pattern.slice(1)`: drop the first character. -/
def strTail (s : String) : String := ⟨s.data.drop 1⟩

/-- `pattern.slice(0, -1)`: drop the last character. -/
def strDropLast (s : String) : String := ⟨s.data.dropLast⟩

/-- `shouldExclude` (sync.js lines 561-573). -/
def shouldExclude (path : String) (patterns : List String) : Bool :=
  patterns.any (fun pattern =>
    if strStarts pattern "*" then strEnds path (strTail pattern)
    else if strEnds pattern "*" then strStarts path (strDropLast pattern)
    else
      path == pattern || strHasSub path ("/" ++ pattern ++ "/")
        || strStarts path (pattern ++ "/") || strEnds path ("/" ++ pattern))

/-- Which transfer a conflict resolution performs. -/
inductive ConflictAction
  | uploadLocal
  | downloadRemote
deriving DecidableEq, Repr

/-- The resolution string recorded by `resolveConflict` together with the
transfer it performs in that branch. -/
structure ConflictOutcome where
  resolution : String
  action : ConflictAction
deriving DecidableEq, Repr

/-- `SyncClient.resolveConflict` (sync.js lines 318-351): the branch taken
and the string it records; the actual transfer is performed by the caller
model (`runConflicts`) subject to `dryRun` and the failure oracles. -/
def resolveConflict (c : ConflictEntry) (strategy : String) : ConflictOutcome :=
  if strategy = "local" then ⟨"upload-local", .uploadLocal⟩
  else if strategy = "remote" then ⟨"download-remote", .downloadRemote⟩
  else if c.localFile.modifiedTime > c.remoteFile.modifiedTime then
    ⟨"upload-local (newer)", .uploadLocal⟩
  else ⟨"download-remote (newer)", .downloadRemote⟩

/-- `loadSyncState` (sync.js lines 540-549).  The sidecar file content is
`none` when the file does not exist; `parse` models `JSON.parse`, returning
`none` when it throws. -/
def loadSyncState (contents : Option String) (parse : String → Option SyncState) : SyncState :=
  match contents with
  | some s =>
    match parse s with
    | some st => st
    | none => { lastSync := none, files := [] }
  | none => { lastSync := none, files := [] }

/-- Insertion into a JS `Set`: keeps the first occurrence, preserves order. -/
def insertUnique (l : List String) (p : String) : List String :=
  if p ∈ l then l else l ++ [p]

/-- `new Set([...keys])` as an ordered duplicate-free list. -/
def uniquePaths (ps : List String) : List String :=
  ps.foldl insertUnique []

/-- The record `buildSyncState` pushes for one path: `modifiedTime` is
`Math.max(localFile?.modifiedTime || 0, remoteFile ? parsed : 0)`. -/
def stateRecOf (localSet : LocalFileSet) (remoteSet : RemoteFileSet) (p : String) :
    StateRec :=
  { path := p
    modifiedTime := max
      (match findLocal localSet.files p with
       | some lf => lf.modifiedTime
       | none => 0)
      (match findRemote remoteSet.files p with
       | some rf => rf.modifiedTime
       | none => 0)
    localSize := (findLocal localSet.files p).map (fun f => f.size)
    remoteId := (findRemote remoteSet.files p).map (fun f => f.id) }

/-- `SyncClient.buildSyncState` (sync.js lines 508-534); `now` models
`new Date().toISOString()`. -/
def buildSyncState (localSet : LocalFileSet) (remoteSet : RemoteFileSet)
    (now : String) : SyncState :=
  let allPaths := uniquePaths
    (localSet.files.map (fun f => f.path) ++ remoteSet.files.map (fun f => f.path))
  { lastSync := some now
    files := allPaths.map (stateRecOf localSet remoteSet) }

/-- The options destructured at the top of `SyncClient.sync`. -/
structure SyncOptions where
  direction : String
  deleteOrphans : Bool
  dryRun : Bool
  exclude : List String
  conflictResolution : String
deriving DecidableEq, Repr

/-- A mutation of the local filesystem or the remote store. -/
inductive Effect
  | mkdirLocal (path : String)
  | upload (path : String)
  | download (path : String)
  | deleteRemote (path : String)
  | deleteLocal (path : String)
  | writeState
deriving DecidableEq, Repr

/-- One entry of `results.errors`. -/
structure SyncError where
  action : String
  file : String
  error : String
deriving DecidableEq, Repr

/-- `results.stats`. -/
structure SyncStats where
  uploadedFiles : Nat
  downloadedFiles : Nat
  deletedLocal : Nat
  deletedRemote : Nat
  conflicts : Nat
  errors : Nat
deriving DecidableEq, Repr

/-- A `results.conflicts` entry: `{ ...conflict, resolution }`. -/
structure ResolvedConflict where
  conflict : ConflictEntry
  resolution : String
deriving DecidableEq, Repr

/-- The `results` object returned by `SyncClient.sync`. -/
structure SyncResults where
  uploaded : List LocalFile
  downloaded : List RemoteFile
  deletedLocal : List LocalFile
  deletedRemote : List RemoteFile
  conflicts : List ResolvedConflict
  errors : List SyncError
  stats : SyncStats
deriving DecidableEq, Repr

/-- Behaviour of the external collaborators (spec section 6) during one
pass: which transfers throw, the messages of thrown errors, and the
metadata the stores report for freshly written copies. -/
structure DriveEnv where
  uploadFails : String → Bool
  downloadFails : String → Bool
  deleteRemoteFails : String → Bool
  deleteLocalFails : String → Bool
  errMsg : String → String
  uploadMtime : String → Int
  uploadId : String → String
  downloadMtime : String → Int

/-- What one executor phase produced: the successful items (pushed to the
corresponding `results` list), the accumulated errors, and the effects. -/
structure ActionLog (α : Type) where
  done : List α
  errors : List SyncError
  effects : List Effect
deriving Repr

/-- One try/catch action loop of `SyncClient.sync`: in a dry run the item is
recorded with no effect; otherwise a failing action is recorded as an error
and a succeeding one as an effect. -/
def runActions {α : Type} (dryRun : Bool) (fails : String → Bool)
    (errMsg : String → String) (actionName : String) (pathOf : α → String)
    (mkEffect : String → Effect) (files : List α) : ActionLog α :=
  files.foldl (fun acc f =>
    if dryRun then { acc with done := acc.done ++ [f] }
    else if fails (pathOf f) then
      { acc with errors := acc.errors ++ [⟨actionName, pathOf f, errMsg (pathOf f)⟩] }
    else
      { acc with done := acc.done ++ [f], effects := acc.effects ++ [mkEffect (pathOf f)] })
    ⟨[], [], []⟩

/-- The effect the transfer of a resolved conflict performs: the branch of
`resolveConflict` that records upload-local calls `uploadFile`, the branch
that records download-remote calls `downloadFile`. -/
def conflictEffect (c : ConflictEntry) (strategy : String) : Effect :=
  match (resolveConflict c strategy).action with
  | .uploadLocal => .upload c.path
  | .downloadRemote => .download c.path

/-- Whether the transfer performed inside `resolveConflict` throws under
`env`. -/
def conflictFails (env : DriveEnv) (c : ConflictEntry) (strategy : String) : Bool :=
  match (resolveConflict c strategy).action with
  | .uploadLocal => env.uploadFails c.path
  | .downloadRemote => env.downloadFails c.path

/-- The conflicts loop of `SyncClient.sync` (lines 158-169): each conflict
is resolved, the resolution's transfer may throw (caught as a
`resolve-conflict` error), and a successful resolution is pushed. -/
def runConflicts (dryRun : Bool) (env : DriveEnv) (strategy : String)
    (conflicts : List ConflictEntry) : ActionLog ResolvedConflict :=
  conflicts.foldl (fun acc c =>
    if dryRun then
      { acc with done := acc.done ++ [⟨c, (resolveConflict c strategy).resolution⟩] }
    else if conflictFails env c strategy then
      { acc with errors := acc.errors ++ [⟨"resolve-conflict", c.path, env.errMsg c.path⟩] }
    else
      { acc with done := acc.done ++ [⟨c, (resolveConflict c strategy).resolution⟩]
                 effects := acc.effects ++ [conflictEffect c strategy] })
    ⟨[], [], []⟩

/-- The value of one whole pass: the returned `results`, the state written
by `saveSyncState` (`none` in a dry run), and the trace of mutations. -/
structure SyncOutcome where
  results : SyncResults
  savedState : Option SyncState
  effects : List Effect
deriving Repr

/-- The empty file set a freshly created local directory scans to. -/
def emptyLocalSet : LocalFileSet := { files := [], folders := [] }

/-- `SyncClient.sync` (sync.js lines 40-178).  `localExists` models
`existsSync(localPath)`, `localScan`/`remoteSet` the two (already
exclusion-filtered) scans, `stateContents`/`parse` the sidecar file and
`JSON.parse`, `now` the clock, and `env` the external stores. -/
def sync (localPath : String) (localExists : Bool) (localScan : LocalFileSet)
    (remoteSet : RemoteFileSet) (stateContents : Option String)
    (parse : String → Option SyncState) (env : DriveEnv) (now : String)
    (opts : SyncOptions) : Except String SyncOutcome :=
  if ¬ localExists ∧ ¬ (opts.direction = "down" ∨ opts.direction = "both") then
    .error ("Local path does not exist: " ++ localPath)
  else
    let mkdirEffects : List Effect :=
      if localExists then [] else [.mkdirLocal localPath]
    let localSet := if localExists then localScan else emptyLocalSet
    let state := loadSyncState stateContents parse
    let comparison := compareFileSets localSet remoteSet state
    let up := opts.direction = "up" ∨ opts.direction = "both"
    let down := opts.direction = "down" ∨ opts.direction = "both"
    let uploads :=
      if up then
        runActions opts.dryRun env.uploadFails env.errMsg "upload"
          (fun f => f.path) .upload comparison.toUpload
      else ⟨[], [], []⟩
    let remoteDeletes :=
      if up ∧ opts.deleteOrphans then
        runActions opts.dryRun env.deleteRemoteFails env.errMsg "delete-remote"
          (fun f => f.path) .deleteRemote comparison.onlyRemote
      else ⟨[], [], []⟩
    let downloads :=
      if down then
        runActions opts.dryRun env.downloadFails env.errMsg "download"
          (fun f => f.path) .download comparison.toDownload
      else ⟨[], [], []⟩
    let localDeletes :=
      if down ∧ opts.deleteOrphans then
        runActions opts.dryRun env.deleteLocalFails env.errMsg "delete-local"
          (fun f => f.path) .deleteLocal comparison.onlyLocal
      else ⟨[], [], []⟩
    let conflictLog := runConflicts opts.dryRun env opts.conflictResolution comparison.conflicts
    let errors := uploads.errors ++ remoteDeletes.errors ++ downloads.errors
      ++ localDeletes.errors ++ conflictLog.errors
    .ok {
      results := {
        uploaded := uploads.done
        downloaded := downloads.done
        deletedLocal := localDeletes.done
        deletedRemote := remoteDeletes.done
        conflicts := conflictLog.done
        errors := errors
        stats := ⟨uploads.done.length, downloads.done.length, localDeletes.done.length,
          remoteDeletes.done.length, conflictLog.done.length, errors.length⟩ }
      savedState :=
        if opts.dryRun then none else some (buildSyncState localSet remoteSet now)
      effects := mkdirEffects ++ uploads.effects ++ remoteDeletes.effects
        ++ downloads.effects ++ localDeletes.effects ++ conflictLog.effects
        ++ (if opts.dryRun then [] else [.writeState]) }

/-! ### Lookup lemmas -/

theorem findByPath_pathOf {α : Type} (pathOf : α → String) (l : List α) (p : String)
    (x : α) (h : findByPath pathOf l p = some x) : x ∈ l ∧ pathOf x = p := by
  refine ⟨List.mem_of_find?_eq_some h, ?_⟩
  have := List.find?_some h
  simpa using this

theorem findByPath_self {α : Type} (pathOf : α → String) (l : List α) (x : α)
    (hnd : (l.map pathOf).Nodup) (hx : x ∈ l) : findByPath pathOf l (pathOf x) = some x := by
  induction l with
  | nil => cases hx
  | cons a t ih =>
    simp only [List.map_cons, List.nodup_cons] at hnd
    rcases List.mem_cons.mp hx with rfl | hmem
    · simp [findByPath, List.find?]
    · have hne : pathOf a ≠ pathOf x := by
        intro he
        exact hnd.1 (he ▸ List.mem_map_of_mem pathOf hmem)
      simp only [findByPath, List.find?]
      rw [show (pathOf a == pathOf x) = false by simpa using hne]
      exact ih hnd.2 hmem

theorem findByPath_eq_none {α : Type} (pathOf : α → String) (l : List α) (p : String)
    (h : ∀ x ∈ l, pathOf x ≠ p) : findByPath pathOf l p = none := by
  apply List.find?_eq_none.mpr
  intro x hx
  simpa using h x hx

theorem findLocal_self (l : List LocalFile) (x : LocalFile)
    (hnd : (l.map LocalFile.path).Nodup) (hx : x ∈ l) : findLocal l x.path = some x :=
  findByPath_self LocalFile.path l x hnd hx

theorem findRemote_self (l : List RemoteFile) (x : RemoteFile)
    (hnd : (l.map RemoteFile.path).Nodup) (hx : x ∈ l) : findRemote l x.path = some x :=
  findByPath_self RemoteFile.path l x hnd hx

theorem findState_self (l : List StateRec) (x : StateRec)
    (hnd : (l.map StateRec.path).Nodup) (hx : x ∈ l) : findState l x.path = some x :=
  findByPath_self StateRec.path l x hnd hx

/-! ### Characterization of `compareFileSets` as per-file contributions -/

/-- What one locally present file contributes to `toUpload`. -/
def upContrib (rs : List RemoteFile) (st : List StateRec) (lf : LocalFile) : List LocalFile :=
  if localFileClass rs st lf = .toUpload then [lf] else []

/-- What one locally present file contributes to `onlyLocal`. -/
def onlyLocalContrib (rs : List RemoteFile) (st : List StateRec) (lf : LocalFile) :
    List LocalFile :=
  if localFileClass rs st lf = .onlyLocal then [lf] else []

/-- What one locally present file contributes to `conflicts`. -/
def conflictContrib (rs : List RemoteFile) (st : List StateRec) (lf : LocalFile) :
    List ConflictEntry :=
  match findRemote rs lf.path with
  | some rf => if localFileClass rs st lf = .conflict then [⟨lf.path, lf, rf⟩] else []
  | none => []

/-- What one locally present file contributes to `toDownload`. -/
def downContribL (rs : List RemoteFile) (st : List StateRec) (lf : LocalFile) :
    List RemoteFile :=
  match findRemote rs lf.path with
  | some rf => if localFileClass rs st lf = .toDownload then [rf] else []
  | none => []

/-- What one locally present file contributes to `inSync`. -/
def inSyncContrib (rs : List RemoteFile) (st : List StateRec) (lf : LocalFile) :
    List InSyncEntry :=
  match findRemote rs lf.path with
  | some rf => if localFileClass rs st lf = .inSync then [⟨lf.path, lf, rf⟩] else []
  | none => []

/-- What one remote file contributes to `onlyRemote` in the second loop. -/
def onlyRemoteContrib (ls : List LocalFile) (st : List StateRec) (rf : RemoteFile) :
    List RemoteFile :=
  if (findLocal ls rf.path).isSome then []
  else if (findState st rf.path).isSome then [rf] else []

/-- What one remote file contributes to `toDownload` in the second loop. -/
def downContribR (ls : List LocalFile) (st : List StateRec) (rf : RemoteFile) :
    List RemoteFile :=
  if (findLocal ls rf.path).isSome then []
  else if (findState st rf.path).isSome then [] else [rf]

theorem processLocalFile_eq (rs : List RemoteFile) (st : List StateRec)
    (acc : Comparison) (lf : LocalFile) :
    processLocalFile rs st acc lf =
      { toUpload := acc.toUpload ++ upContrib rs st lf
        toDownload := acc.toDownload ++ downContribL rs st lf
        onlyLocal := acc.onlyLocal ++ onlyLocalContrib rs st lf
        onlyRemote := acc.onlyRemote
        conflicts := acc.conflicts ++ conflictContrib rs st lf
        inSync := acc.inSync ++ inSyncContrib rs st lf } := by
  unfold processLocalFile upContrib downContribL onlyLocalContrib conflictContrib
    inSyncContrib localFileClass
  cases hr : findRemote rs lf.path <;> cases hs : findState st lf.path <;>
    simp <;> split_ifs <;> simp_all

theorem foldl_processLocalFile (rs : List RemoteFile) (st : List StateRec)
    (files : List LocalFile) (acc : Comparison) :
    files.foldl (processLocalFile rs st) acc =
      { toUpload := acc.toUpload ++ files.flatMap (upContrib rs st)
        toDownload := acc.toDownload ++ files.flatMap (downContribL rs st)
        onlyLocal := acc.onlyLocal ++ files.flatMap (onlyLocalContrib rs st)
        onlyRemote := acc.onlyRemote
        conflicts := acc.conflicts ++ files.flatMap (conflictContrib rs st)
        inSync := acc.inSync ++ files.flatMap (inSyncContrib rs st) } := by
  induction files generalizing acc with
  | nil => simp
  | cons f fs ih =>
    rw [List.foldl_cons, processLocalFile_eq, ih]
    simp [List.append_assoc]

theorem processRemoteFile_eq (ls : List LocalFile) (st : List StateRec)
    (acc : Comparison) (rf : RemoteFile) :
    processRemoteFile ls st acc rf =
      { acc with
        onlyRemote := acc.onlyRemote ++ onlyRemoteContrib ls st rf
        toDownload := acc.toDownload ++ downContribR ls st rf } := by
  unfold processRemoteFile onlyRemoteContrib downContribR
  cases hl : (findLocal ls rf.path).isSome <;> cases hs : findState st rf.path <;>
    simp_all

theorem foldl_processRemoteFile (ls : List LocalFile) (st : List StateRec)
    (files : List RemoteFile) (acc : Comparison) :
    files.foldl (processRemoteFile ls st) acc =
      { acc with
        onlyRemote := acc.onlyRemote ++ files.flatMap (onlyRemoteContrib ls st)
        toDownload := acc.toDownload ++ files.flatMap (downContribR ls st) } := by
  induction files generalizing acc with
  | nil => simp
  | cons f fs ih =>
    rw [List.foldl_cons, processRemoteFile_eq, ih]
    simp [List.append_assoc]

theorem compareFileSets_eq (L : LocalFileSet) (R : RemoteFileSet) (S : SyncState) :
    compareFileSets L R S =
      { toUpload := L.files.flatMap (upContrib R.files S.files)
        toDownload := L.files.flatMap (downContribL R.files S.files)
          ++ R.files.flatMap (downContribR L.files S.files)
        onlyLocal := L.files.flatMap (onlyLocalContrib R.files S.files)
        onlyRemote := R.files.flatMap (onlyRemoteContrib L.files S.files)
        conflicts := L.files.flatMap (conflictContrib R.files S.files)
        inSync := L.files.flatMap (inSyncContrib R.files S.files) } := by
  unfold compareFileSets
  rw [foldl_processLocalFile, foldl_processRemoteFile]
  simp [emptyComparison]

/-! ### Reduction helpers for `classifyPath` and `localFileClass` -/

theorem classifyPath_of_some {ls : List LocalFile} {rs : List RemoteFile}
    {st : List StateRec} {p : String} {lf : LocalFile}
    (hfl : findLocal ls p = some lf) :
    classifyPath ls rs st p = localFileClass rs st lf := by
  unfold classifyPath
  rw [hfl]

theorem classifyPath_of_none {ls : List LocalFile} {rs : List RemoteFile}
    {st : List StateRec} {p : String} (hfl : findLocal ls p = none) :
    classifyPath ls rs st p =
      match findRemote rs p with
      | some _ => if (findState st p).isSome then .onlyRemote else .toDownload
      | none => .absent := by
  unfold classifyPath
  rw [hfl]

theorem localFileClass_remote_none {rs : List RemoteFile} {st : List StateRec}
    {lf : LocalFile} (hr : findRemote rs lf.path = none) :
    localFileClass rs st lf =
      if (findState st lf.path).isSome then .onlyLocal else .toUpload := by
  unfold localFileClass
  rw [hr]
  cases hs : findState st lf.path <;> simp

theorem localFileClass_state_some {rs : List RemoteFile} {st : List StateRec}
    {lf : LocalFile} {rf : RemoteFile} {sr : StateRec}
    (hr : findRemote rs lf.path = some rf) (hs : findState st lf.path = some sr) :
    localFileClass rs st lf =
      if lf.modifiedTime > sr.modifiedTime + 1000 ∧ rf.modifiedTime > sr.modifiedTime + 1000
      then .conflict
      else if lf.modifiedTime > sr.modifiedTime + 1000 then .toUpload
      else if rf.modifiedTime > sr.modifiedTime + 1000 then .toDownload
      else .inSync := by
  unfold localFileClass
  rw [hr, hs]

theorem localFileClass_state_none {rs : List RemoteFile} {st : List StateRec}
    {lf : LocalFile} {rf : RemoteFile}
    (hr : findRemote rs lf.path = some rf) (hs : findState st lf.path = none) :
    localFileClass rs st lf =
      if |lf.modifiedTime - rf.modifiedTime| < 1000 then .inSync
      else if lf.modifiedTime > rf.modifiedTime then .toUpload
      else .toDownload := by
  unfold localFileClass
  rw [hr, hs]

theorem localFileClass_ne_onlyRemote (rs : List RemoteFile) (st : List StateRec)
    (lf : LocalFile) : localFileClass rs st lf ≠ .onlyRemote := by
  cases hr : findRemote rs lf.path with
  | none => rw [localFileClass_remote_none hr]; split_ifs <;> simp
  | some rf =>
    cases hs : findState st lf.path with
    | some sr => rw [localFileClass_state_some hr hs]; split_ifs <;> simp
    | none => rw [localFileClass_state_none hr hs]; split_ifs <;> simp

theorem localFileClass_ne_absent (rs : List RemoteFile) (st : List StateRec)
    (lf : LocalFile) : localFileClass rs st lf ≠ .absent := by
  cases hr : findRemote rs lf.path with
  | none => rw [localFileClass_remote_none hr]; split_ifs <;> simp
  | some rf =>
    cases hs : findState st lf.path with
    | some sr => rw [localFileClass_state_some hr hs]; split_ifs <;> simp
    | none => rw [localFileClass_state_none hr hs]; split_ifs <;> simp

/-! ### Path membership in each classification set -/

theorem mem_path_toUpload_iff (L : LocalFileSet) (R : RemoteFileSet) (S : SyncState)
    (p : String) (hnl : (L.files.map LocalFile.path).Nodup) :
    p ∈ (compareFileSets L R S).toUpload.map LocalFile.path ↔
      classifyPath L.files R.files S.files p = .toUpload := by
  rw [compareFileSets_eq]
  simp only [List.mem_map, List.mem_flatMap]
  constructor
  · rintro ⟨lf, ⟨lf0, hlf0, hc⟩, rfl⟩
    unfold upContrib at hc
    split at hc
    · next h =>
      simp only [List.mem_singleton] at hc
      subst hc
      rw [classifyPath_of_some (findByPath_self LocalFile.path L.files lf hnl hlf0)]
      exact h
    · simp at hc
  · intro h
    cases hfl : findLocal L.files p with
    | none =>
      rw [classifyPath_of_none hfl] at h
      cases hfr : findRemote R.files p with
      | none => rw [hfr] at h; simp at h
      | some rf => rw [hfr] at h; split_ifs at h
    | some lf =>
      rw [classifyPath_of_some hfl] at h
      obtain ⟨hmem, hpath⟩ := findByPath_pathOf LocalFile.path L.files p lf hfl
      refine ⟨lf, ⟨lf, hmem, ?_⟩, hpath⟩
      unfold upContrib
      rw [if_pos h]
      simp

theorem mem_path_onlyLocal_iff (L : LocalFileSet) (R : RemoteFileSet) (S : SyncState)
    (p : String) (hnl : (L.files.map LocalFile.path).Nodup) :
    p ∈ (compareFileSets L R S).onlyLocal.map LocalFile.path ↔
      classifyPath L.files R.files S.files p = .onlyLocal := by
  rw [compareFileSets_eq]
  simp only [List.mem_map, List.mem_flatMap]
  constructor
  · rintro ⟨lf, ⟨lf0, hlf0, hc⟩, rfl⟩
    unfold onlyLocalContrib at hc
    split at hc
    · next h =>
      simp only [List.mem_singleton] at hc
      subst hc
      rw [classifyPath_of_some (findByPath_self LocalFile.path L.files lf hnl hlf0)]
      exact h
    · simp at hc
  · intro h
    cases hfl : findLocal L.files p with
    | none =>
      rw [classifyPath_of_none hfl] at h
      cases hfr : findRemote R.files p with
      | none => rw [hfr] at h; simp at h
      | some rf => rw [hfr] at h; split_ifs at h
    | some lf =>
      rw [classifyPath_of_some hfl] at h
      obtain ⟨hmem, hpath⟩ := findByPath_pathOf LocalFile.path L.files p lf hfl
      refine ⟨lf, ⟨lf, hmem, ?_⟩, hpath⟩
      unfold onlyLocalContrib
      rw [if_pos h]
      simp

theorem mem_path_conflicts_iff (L : LocalFileSet) (R : RemoteFileSet) (S : SyncState)
    (p : String) (hnl : (L.files.map LocalFile.path).Nodup) :
    p ∈ (compareFileSets L R S).conflicts.map ConflictEntry.path ↔
      classifyPath L.files R.files S.files p = .conflict := by
  rw [compareFileSets_eq]
  simp only [List.mem_map, List.mem_flatMap]
  constructor
  · rintro ⟨c, ⟨lf0, hlf0, hc⟩, rfl⟩
    unfold conflictContrib at hc
    split at hc
    · next rf hr =>
      split at hc
      · next h =>
        simp only [List.mem_singleton] at hc
        subst hc
        rw [classifyPath_of_some (findByPath_self LocalFile.path L.files lf0 hnl hlf0)]
        exact h
      · simp at hc
    · simp at hc
  · intro h
    cases hfl : findLocal L.files p with
    | none =>
      rw [classifyPath_of_none hfl] at h
      cases hfr : findRemote R.files p with
      | none => rw [hfr] at h; simp at h
      | some rf => rw [hfr] at h; split_ifs at h
    | some lf =>
      rw [classifyPath_of_some hfl] at h
      obtain ⟨hmem, hpath⟩ := findByPath_pathOf LocalFile.path L.files p lf hfl
      have hrf : ∃ rf, findRemote R.files lf.path = some rf := by
        cases hr : findRemote R.files lf.path with
        | none => rw [localFileClass_remote_none hr] at h; split_ifs at h
        | some rf => exact ⟨rf, rfl⟩
      obtain ⟨rf, hr⟩ := hrf
      refine ⟨⟨lf.path, lf, rf⟩, ⟨lf, hmem, ?_⟩, hpath⟩
      unfold conflictContrib
      rw [hr]
      simp [h]

theorem mem_path_inSync_iff (L : LocalFileSet) (R : RemoteFileSet) (S : SyncState)
    (p : String) (hnl : (L.files.map LocalFile.path).Nodup) :
    p ∈ (compareFileSets L R S).inSync.map InSyncEntry.path ↔
      classifyPath L.files R.files S.files p = .inSync := by
  rw [compareFileSets_eq]
  simp only [List.mem_map, List.mem_flatMap]
  constructor
  · rintro ⟨c, ⟨lf0, hlf0, hc⟩, rfl⟩
    unfold inSyncContrib at hc
    split at hc
    · next rf hr =>
      split at hc
      · next h =>
        simp only [List.mem_singleton] at hc
        subst hc
        rw [classifyPath_of_some (findByPath_self LocalFile.path L.files lf0 hnl hlf0)]
        exact h
      · simp at hc
    · simp at hc
  · intro h
    cases hfl : findLocal L.files p with
    | none =>
      rw [classifyPath_of_none hfl] at h
      cases hfr : findRemote R.files p with
      | none => rw [hfr] at h; simp at h
      | some rf => rw [hfr] at h; split_ifs at h
    | some lf =>
      rw [classifyPath_of_some hfl] at h
      obtain ⟨hmem, hpath⟩ := findByPath_pathOf LocalFile.path L.files p lf hfl
      have hrf : ∃ rf, findRemote R.files lf.path = some rf := by
        cases hr : findRemote R.files lf.path with
        | none => rw [localFileClass_remote_none hr] at h; split_ifs at h
        | some rf => exact ⟨rf, rfl⟩
      obtain ⟨rf, hr⟩ := hrf
      refine ⟨⟨lf.path, lf, rf⟩, ⟨lf, hmem, ?_⟩, hpath⟩
      unfold inSyncContrib
      rw [hr]
      simp [h]

theorem mem_path_onlyRemote_iff (L : LocalFileSet) (R : RemoteFileSet) (S : SyncState)
    (p : String) (hnr : (R.files.map RemoteFile.path).Nodup) :
    p ∈ (compareFileSets L R S).onlyRemote.map RemoteFile.path ↔
      classifyPath L.files R.files S.files p = .onlyRemote := by
  rw [compareFileSets_eq]
  simp only [List.mem_map, List.mem_flatMap]
  constructor
  · rintro ⟨rf, ⟨rf0, hrf0, hc⟩, rfl⟩
    unfold onlyRemoteContrib at hc
    split_ifs at hc with h1 h2
    · simp at hc
    · simp only [List.mem_singleton] at hc
      subst hc
      have hfl : findLocal L.files rf.path = none := by
        cases hq : findLocal L.files rf.path with
        | none => rfl
        | some lf => rw [hq] at h1; simp at h1
      rw [classifyPath_of_none hfl, findRemote_self R.files rf hnr hrf0]
      simp [h2]
    · simp at hc
  · intro h
    cases hfl : findLocal L.files p with
    | some lf =>
      rw [classifyPath_of_some hfl] at h
      exact absurd h (localFileClass_ne_onlyRemote _ _ _)
    | none =>
      rw [classifyPath_of_none hfl] at h
      cases hfr : findRemote R.files p with
      | none => rw [hfr] at h; simp at h
      | some rf =>
        rw [hfr] at h
        obtain ⟨hmem, hpath⟩ := findByPath_pathOf RemoteFile.path R.files p rf hfr
        have hst : (findState S.files p).isSome := by
          by_contra hc
          rw [if_neg hc] at h
          simp at h
        refine ⟨rf, ⟨rf, hmem, ?_⟩, hpath⟩
        unfold onlyRemoteContrib
        rw [hpath]
        simp [hfl, hst]

theorem mem_path_toDownload_iff (L : LocalFileSet) (R : RemoteFileSet) (S : SyncState)
    (p : String) (hnl : (L.files.map LocalFile.path).Nodup)
    (hnr : (R.files.map RemoteFile.path).Nodup) :
    p ∈ (compareFileSets L R S).toDownload.map RemoteFile.path ↔
      classifyPath L.files R.files S.files p = .toDownload := by
  rw [compareFileSets_eq]
  simp only [List.map_append, List.mem_append, List.mem_map, List.mem_flatMap]
  constructor
  · rintro (⟨rf, ⟨lf0, hlf0, hc⟩, rfl⟩ | ⟨rf, ⟨rf0, hrf0, hc⟩, rfl⟩)
    · unfold downContribL at hc
      split at hc
      · next rf1 hr =>
        split at hc
        · next h =>
          simp only [List.mem_singleton] at hc
          subst hc
          obtain ⟨_, hrp⟩ := findByPath_pathOf RemoteFile.path R.files lf0.path rf hr
          rw [hrp, classifyPath_of_some (findByPath_self LocalFile.path L.files lf0 hnl hlf0)]
          exact h
        · simp at hc
      · simp at hc
    · unfold downContribR at hc
      split_ifs at hc with h1 h2
      · simp at hc
      · simp at hc
      · simp only [List.mem_singleton] at hc
        subst hc
        have hfl : findLocal L.files rf.path = none := by
          cases hq : findLocal L.files rf.path with
          | none => rfl
          | some lf => rw [hq] at h1; simp at h1
        rw [classifyPath_of_none hfl, findRemote_self R.files rf hnr hrf0]
        have hst : findState S.files rf.path = none := by
          cases hq : findState S.files rf.path with
          | none => rfl
          | some sr => rw [hq] at h2; simp at h2
        simp [hst]
  · intro h
    cases hfl : findLocal L.files p with
    | some lf =>
      rw [classifyPath_of_some hfl] at h
      obtain ⟨hmem, hpath⟩ := findByPath_pathOf LocalFile.path L.files p lf hfl
      have hrf : ∃ rf, findRemote R.files lf.path = some rf := by
        cases hr : findRemote R.files lf.path with
        | none => rw [localFileClass_remote_none hr] at h; split_ifs at h
        | some rf => exact ⟨rf, rfl⟩
      obtain ⟨rf, hr⟩ := hrf
      obtain ⟨_, hrp⟩ := findByPath_pathOf RemoteFile.path R.files lf.path rf hr
      refine Or.inl ⟨rf, ⟨lf, hmem, ?_⟩, by rw [hrp, hpath]⟩
      unfold downContribL
      rw [hr]
      simp [h]
    | none =>
      rw [classifyPath_of_none hfl] at h
      cases hfr : findRemote R.files p with
      | none => rw [hfr] at h; simp at h
      | some rf =>
        rw [hfr] at h
        obtain ⟨hmem, hpath⟩ := findByPath_pathOf RemoteFile.path R.files p rf hfr
        have hst : findState S.files p = none := by
          cases hq : findState S.files p with
          | none => rfl
          | some sr => rw [hq] at h; simp at h
        refine Or.inr ⟨rf, ⟨rf, hmem, ?_⟩, hpath⟩
        unfold downContribR
        rw [hpath]
        simp [hfl, hst]

/-! ### C2: the `newer` conflict strategy -/

/-- C2 counterexample: with the `newer` strategy and exactly equal local and
remote modification times, `resolveConflict` performs the download-remote
action, not the upload-local action the claim states. -/
theorem C2_counterexample :
    (resolveConflict ⟨"notes.txt", ⟨"notes.txt", "notes.txt", 1, 5000⟩,
        ⟨"id1", "notes.txt", "notes.txt", 1, 5000⟩⟩ "newer")
      = ⟨"download-remote (newer)", .downloadRemote⟩
    ∧ ConflictAction.downloadRemote ≠ ConflictAction.uploadLocal := by
  constructor
  · decide
  · decide

/-- C2 (amended): under the `newer` strategy `resolveConflict` transfers from
the side with the strictly greater modification time, and on an exact tie it
resolves to the remote side (performs the download-remote action). -/
theorem C2_amended (c : ConflictEntry) :
    (c.localFile.modifiedTime > c.remoteFile.modifiedTime →
      resolveConflict c "newer" = ⟨"upload-local (newer)", .uploadLocal⟩)
    ∧ (c.remoteFile.modifiedTime > c.localFile.modifiedTime →
      resolveConflict c "newer" = ⟨"download-remote (newer)", .downloadRemote⟩)
    ∧ (c.localFile.modifiedTime = c.remoteFile.modifiedTime →
      resolveConflict c "newer" = ⟨"download-remote (newer)", .downloadRemote⟩) := by
  unfold resolveConflict
  rw [if_neg (by decide : ¬ ("newer" : String) = "local"),
    if_neg (by decide : ¬ ("newer" : String) = "remote")]
  refine ⟨fun h => ?_, fun h => ?_, fun h => ?_⟩
  · rw [if_pos h]
  · rw [if_neg (by omega)]
  · rw [if_neg (by omega)]

/-- C2 witness: the amended theorem applied to a strictly-newer-local
conflict and to an exact-tie conflict. -/
theorem C2_witness :
    resolveConflict ⟨"a", ⟨"a", "a", 1, 2000⟩, ⟨"i", "a", "a", 1, 1000⟩⟩ "newer"
      = ⟨"upload-local (newer)", .uploadLocal⟩
    ∧ resolveConflict ⟨"b", ⟨"b", "b", 1, 3000⟩, ⟨"i", "b", "b", 1, 3000⟩⟩ "newer"
      = ⟨"download-remote (newer)", .downloadRemote⟩ :=
  ⟨(C2_amended _).1 (by decide), (C2_amended _).2.2 rfl⟩

/-! ### C8: missing or corrupt sidecar state -/

/-- The local-files loop never classifies a file `onlyLocal` when the prior
state is empty. -/
theorem localFileClass_nil_ne_onlyLocal (rs : List RemoteFile) (lf : LocalFile) :
    localFileClass rs [] lf ≠ .onlyLocal := by
  unfold localFileClass
  cases hr : findRemote rs lf.path with
  | none => simp [findState, findByPath]
  | some rf =>
    simp only [findState, findByPath, List.find?]
    split_ifs <;> simp

/-- C8: when the sidecar file is missing or its content fails to parse,
`loadSyncState` returns the empty prior state, every per-path state lookup
is `none`, and the pass degrades to a two-way comparison: no path is
classified `onlyLocal` or `onlyRemote`. -/
theorem C8_loadSyncState_recovers (contents : Option String)
    (parse : String → Option SyncState)
    (h : contents = none ∨ ∃ s, contents = some s ∧ parse s = none) :
    loadSyncState contents parse = { lastSync := none, files := [] }
    ∧ (∀ p, findState (loadSyncState contents parse).files p = none)
    ∧ (∀ (L : LocalFileSet) (R : RemoteFileSet),
        (compareFileSets L R (loadSyncState contents parse)).onlyLocal = []
        ∧ (compareFileSets L R (loadSyncState contents parse)).onlyRemote = []) := by
  have hempty : loadSyncState contents parse = { lastSync := none, files := [] } := by
    rcases h with rfl | ⟨s, rfl, hp⟩
    · rfl
    · simp [loadSyncState, hp]
  refine ⟨hempty, fun p => by rw [hempty]; rfl, fun L R => ?_⟩
  rw [hempty, compareFileSets_eq]
  constructor
  · apply List.eq_nil_iff_forall_not_mem.mpr
    intro x hx
    rw [List.mem_flatMap] at hx
    obtain ⟨lf, _, hmem⟩ := hx
    unfold onlyLocalContrib at hmem
    rw [if_neg (localFileClass_nil_ne_onlyLocal R.files lf)] at hmem
    exact absurd hmem (List.not_mem_nil x)
  · apply List.eq_nil_iff_forall_not_mem.mpr
    intro x hx
    rw [List.mem_flatMap] at hx
    obtain ⟨rf, _, hmem⟩ := hx
    unfold onlyRemoteContrib at hmem
    have hst : findState ([] : List StateRec) rf.path = none := rfl
    rw [hst] at hmem
    simp at hmem

/-- A parse function that always fails, as `JSON.parse` does on garbage. -/
def failingParse : String → Option SyncState := fun _ => none

/-- C8 witness: a present-but-unparseable sidecar file yields the empty
state and an empty `onlyLocal` set for a nonempty local tree. -/
theorem C8_witness :
    loadSyncState (some "not json") failingParse = { lastSync := none, files := [] }
    ∧ findState (loadSyncState (some "not json") failingParse).files "a.txt" = none
    ∧ (compareFileSets ⟨[⟨"a.txt", "a.txt", 3, 5000⟩], []⟩ ⟨[], []⟩
        (loadSyncState (some "not json") failingParse)).onlyLocal = [] := by
  obtain ⟨h1, h2, h3⟩ := C8_loadSyncState_recovers (some "not json") failingParse
    (Or.inr ⟨"not json", rfl, rfl⟩)
  exact ⟨h1, h2 "a.txt", (h3 ⟨[⟨"a.txt", "a.txt", 3, 5000⟩], []⟩ ⟨[], []⟩).1⟩

/-! ### C6: both-changed paths always conflict -/

/-- C6: a path present on both sides with a prior state record, whose local
and remote modification times both exceed the recorded state time by more
than the 1000ms tolerance, is classified `conflict` (and not upload or
download), regardless of which side is numerically newer. -/
theorem C6_both_changed_conflict (L : LocalFileSet) (R : RemoteFileSet) (S : SyncState)
    (p : String) (lf : LocalFile) (rf : RemoteFile) (sr : StateRec)
    (hnl : (L.files.map LocalFile.path).Nodup)
    (hnr : (R.files.map RemoteFile.path).Nodup)
    (hl : findLocal L.files p = some lf) (hr : findRemote R.files p = some rf)
    (hs : findState S.files p = some sr)
    (hlc : lf.modifiedTime > sr.modifiedTime + 1000)
    (hrc : rf.modifiedTime > sr.modifiedTime + 1000) :
    classifyPath L.files R.files S.files p = .conflict
    ∧ p ∈ (compareFileSets L R S).conflicts.map ConflictEntry.path
    ∧ p ∉ (compareFileSets L R S).toUpload.map LocalFile.path
    ∧ p ∉ (compareFileSets L R S).toDownload.map RemoteFile.path := by
  have hpath : lf.path = p := (findByPath_pathOf _ _ _ _ hl).2
  have hr' : findRemote R.files lf.path = some rf := by rw [hpath]; exact hr
  have hs' : findState S.files lf.path = some sr := by rw [hpath]; exact hs
  have hcls : classifyPath L.files R.files S.files p = .conflict := by
    rw [classifyPath_of_some hl, localFileClass_state_some hr' hs', if_pos ⟨hlc, hrc⟩]
  refine ⟨hcls, (mem_path_conflicts_iff L R S p hnl).mpr hcls, ?_, ?_⟩
  · intro hm
    exact FileClass.noConfusion (hcls.symm.trans ((mem_path_toUpload_iff L R S p hnl).mp hm))
  · intro hm
    exact FileClass.noConfusion
      (hcls.symm.trans ((mem_path_toDownload_iff L R S p hnl hnr).mp hm))

/-- C6 witness: a concrete both-changed path where the remote side is
numerically older than the local side still conflicts. -/
theorem C6_witness :
    classifyPath [⟨"a.txt", "a.txt", 3, 5000⟩] [⟨"id1", "a.txt", "a.txt", 3, 2500⟩]
      [⟨"a.txt", 1000, none, none⟩] "a.txt" = .conflict
    ∧ "a.txt" ∈ (compareFileSets ⟨[⟨"a.txt", "a.txt", 3, 5000⟩], []⟩
        ⟨[⟨"id1", "a.txt", "a.txt", 3, 2500⟩], []⟩
        ⟨none, [⟨"a.txt", 1000, none, none⟩]⟩).conflicts.map ConflictEntry.path := by
  have h := C6_both_changed_conflict ⟨[⟨"a.txt", "a.txt", 3, 5000⟩], []⟩
    ⟨[⟨"id1", "a.txt", "a.txt", 3, 2500⟩], []⟩ ⟨none, [⟨"a.txt", 1000, none, none⟩]⟩
    "a.txt" ⟨"a.txt", "a.txt", 3, 5000⟩ ⟨"id1", "a.txt", "a.txt", 3, 2500⟩
    ⟨"a.txt", 1000, none, none⟩ (by decide) (by decide) (by decide) (by decide)
    (by decide) (by decide) (by decide)
  exact ⟨h.1, h.2.1⟩

/-! ### C7: orphan distinction -/

/-- C7: with a prior state record, a path present only locally classifies
`onlyLocal` and a path present only remotely classifies `onlyRemote`, never
the reverse; without a prior record the same shapes classify `toUpload` and
`toDownload` respectively. -/
theorem C7_orphan_distinction (L : LocalFileSet) (R : RemoteFileSet) (S : SyncState)
    (p : String) (hnl : (L.files.map LocalFile.path).Nodup)
    (hnr : (R.files.map RemoteFile.path).Nodup) :
    (∀ lf, findLocal L.files p = some lf → findRemote R.files p = none →
      (((findState S.files p).isSome →
          p ∈ (compareFileSets L R S).onlyLocal.map LocalFile.path
          ∧ p ∉ (compareFileSets L R S).onlyRemote.map RemoteFile.path
          ∧ p ∉ (compareFileSets L R S).toUpload.map LocalFile.path)
        ∧ (findState S.files p = none →
          p ∈ (compareFileSets L R S).toUpload.map LocalFile.path
          ∧ p ∉ (compareFileSets L R S).onlyLocal.map LocalFile.path)))
    ∧ (∀ rf, findLocal L.files p = none → findRemote R.files p = some rf →
      (((findState S.files p).isSome →
          p ∈ (compareFileSets L R S).onlyRemote.map RemoteFile.path
          ∧ p ∉ (compareFileSets L R S).onlyLocal.map LocalFile.path
          ∧ p ∉ (compareFileSets L R S).toDownload.map RemoteFile.path)
        ∧ (findState S.files p = none →
          p ∈ (compareFileSets L R S).toDownload.map RemoteFile.path
          ∧ p ∉ (compareFileSets L R S).onlyRemote.map RemoteFile.path))) := by
  constructor
  · intro lf hl hr
    have hpath : lf.path = p := (findByPath_pathOf _ _ _ _ hl).2
    have hr' : findRemote R.files lf.path = none := by rw [hpath]; exact hr
    constructor
    · intro hst
      have hst' : (findState S.files lf.path).isSome := by rw [hpath]; exact hst
      have hcls : classifyPath L.files R.files S.files p = .onlyLocal := by
        rw [classifyPath_of_some hl, localFileClass_remote_none hr', if_pos hst']
      refine ⟨(mem_path_onlyLocal_iff L R S p hnl).mpr hcls, ?_, ?_⟩
      · intro hm
        exact FileClass.noConfusion
          (hcls.symm.trans ((mem_path_onlyRemote_iff L R S p hnr).mp hm))
      · intro hm
        exact FileClass.noConfusion
          (hcls.symm.trans ((mem_path_toUpload_iff L R S p hnl).mp hm))
    · intro hst
      have hst' : ¬ (findState S.files lf.path).isSome := by
        rw [hpath, hst]; simp
      have hcls : classifyPath L.files R.files S.files p = .toUpload := by
        rw [classifyPath_of_some hl, localFileClass_remote_none hr', if_neg hst']
      refine ⟨(mem_path_toUpload_iff L R S p hnl).mpr hcls, ?_⟩
      intro hm
      exact FileClass.noConfusion
        (hcls.symm.trans ((mem_path_onlyLocal_iff L R S p hnl).mp hm))
  · intro rf hl hr
    constructor
    · intro hst
      have hcls : classifyPath L.files R.files S.files p = .onlyRemote := by
        rw [classifyPath_of_none hl, hr, if_pos hst]
      refine ⟨(mem_path_onlyRemote_iff L R S p hnr).mpr hcls, ?_, ?_⟩
      · intro hm
        exact FileClass.noConfusion
          (hcls.symm.trans ((mem_path_onlyLocal_iff L R S p hnl).mp hm))
      · intro hm
        exact FileClass.noConfusion
          (hcls.symm.trans ((mem_path_toDownload_iff L R S p hnl hnr).mp hm))
    · intro hst
      have hst' : ¬ (findState S.files p).isSome := by rw [hst]; simp
      have hcls : classifyPath L.files R.files S.files p = .toDownload := by
        rw [classifyPath_of_none hl, hr, if_neg hst']
      refine ⟨(mem_path_toDownload_iff L R S p hnl hnr).mpr hcls, ?_⟩
      intro hm
      exact FileClass.noConfusion
        (hcls.symm.trans ((mem_path_onlyRemote_iff L R S p hnr).mp hm))

/-- C7 witness: the four orphan shapes at concrete inputs, derived from the
orphan-distinction theorem. -/
theorem C7_witness :
    "a" ∈ (compareFileSets ⟨[⟨"a", "a", 1, 5000⟩], []⟩ ⟨[], []⟩
        ⟨none, [⟨"a", 5000, none, none⟩]⟩).onlyLocal.map LocalFile.path
    ∧ "a" ∉ (compareFileSets ⟨[⟨"a", "a", 1, 5000⟩], []⟩ ⟨[], []⟩
        ⟨none, [⟨"a", 5000, none, none⟩]⟩).onlyRemote.map RemoteFile.path
    ∧ "b" ∈ (compareFileSets ⟨[], []⟩ ⟨[⟨"i", "b", "b", 1, 5000⟩], []⟩
        ⟨none, [⟨"b", 5000, none, none⟩]⟩).onlyRemote.map RemoteFile.path
    ∧ "b" ∉ (compareFileSets ⟨[], []⟩ ⟨[⟨"i", "b", "b", 1, 5000⟩], []⟩
        ⟨none, [⟨"b", 5000, none, none⟩]⟩).onlyLocal.map LocalFile.path := by
  have h1 := ((C7_orphan_distinction ⟨[⟨"a", "a", 1, 5000⟩], []⟩ ⟨[], []⟩
      ⟨none, [⟨"a", 5000, none, none⟩]⟩ "a" (by decide) (by decide)).1
      ⟨"a", "a", 1, 5000⟩ (by decide) (by decide)).1 (by decide)
  have h2 := ((C7_orphan_distinction ⟨[], []⟩ ⟨[⟨"i", "b", "b", 1, 5000⟩], []⟩
      ⟨none, [⟨"b", 5000, none, none⟩]⟩ "b" (by decide) (by decide)).2
      ⟨"i", "b", "b", 1, 5000⟩ (by decide) (by decide)).1 (by decide)
  exact ⟨h1.1, h1.2.1, h2.1, h2.2.1⟩

/-! ### C9: the classification is a partition -/

/-- In how many of the six classification sets a path occurs. -/
def membershipCount (c : Comparison) (p : String) : Nat :=
  (if p ∈ c.toUpload.map LocalFile.path then 1 else 0)
  + (if p ∈ c.toDownload.map RemoteFile.path then 1 else 0)
  + (if p ∈ c.onlyLocal.map LocalFile.path then 1 else 0)
  + (if p ∈ c.onlyRemote.map RemoteFile.path then 1 else 0)
  + (if p ∈ c.conflicts.map ConflictEntry.path then 1 else 0)
  + (if p ∈ c.inSync.map InSyncEntry.path then 1 else 0)

/-- C9: every locally present path lands in exactly one classification set
(and never in `onlyRemote`), and every remote-only path lands in exactly one
set, which is `onlyRemote` or `toDownload`. -/
theorem C9_partition (L : LocalFileSet) (R : RemoteFileSet) (S : SyncState)
    (p : String) (hnl : (L.files.map LocalFile.path).Nodup)
    (hnr : (R.files.map RemoteFile.path).Nodup) :
    ((findLocal L.files p).isSome →
      membershipCount (compareFileSets L R S) p = 1
      ∧ p ∉ (compareFileSets L R S).onlyRemote.map RemoteFile.path)
    ∧ (findLocal L.files p = none → (findRemote R.files p).isSome →
      membershipCount (compareFileSets L R S) p = 1
      ∧ (p ∈ (compareFileSets L R S).onlyRemote.map RemoteFile.path
         ∨ p ∈ (compareFileSets L R S).toDownload.map RemoteFile.path)) := by
  have hup := mem_path_toUpload_iff L R S p hnl
  have hdn := mem_path_toDownload_iff L R S p hnl hnr
  have hol := mem_path_onlyLocal_iff L R S p hnl
  have hor := mem_path_onlyRemote_iff L R S p hnr
  have hcf := mem_path_conflicts_iff L R S p hnl
  have hin := mem_path_inSync_iff L R S p hnl
  constructor
  · intro hsome
    obtain ⟨lf, hl⟩ := Option.isSome_iff_exists.mp hsome
    have hcp : classifyPath L.files R.files S.files p =
        localFileClass R.files S.files lf := classifyPath_of_some hl
    cases hclass : localFileClass R.files S.files lf with
    | onlyRemote => exact absurd hclass (localFileClass_ne_onlyRemote _ _ _)
    | absent => exact absurd hclass (localFileClass_ne_absent _ _ _)
    | toUpload =>
      rw [hclass] at hcp
      simp [membershipCount, hup, hdn, hol, hor, hcf, hin, hcp]
    | toDownload =>
      rw [hclass] at hcp
      simp [membershipCount, hup, hdn, hol, hor, hcf, hin, hcp]
    | onlyLocal =>
      rw [hclass] at hcp
      simp [membershipCount, hup, hdn, hol, hor, hcf, hin, hcp]
    | conflict =>
      rw [hclass] at hcp
      simp [membershipCount, hup, hdn, hol, hor, hcf, hin, hcp]
    | inSync =>
      rw [hclass] at hcp
      simp [membershipCount, hup, hdn, hol, hor, hcf, hin, hcp]
  · intro hnone hsome
    obtain ⟨rf, hr⟩ := Option.isSome_iff_exists.mp hsome
    have hcp : classifyPath L.files R.files S.files p =
        if (findState S.files p).isSome then .onlyRemote else .toDownload := by
      rw [classifyPath_of_none hnone, hr]
    cases hst : (findState S.files p).isSome with
    | true =>
      rw [hst, if_pos rfl] at hcp
      refine ⟨?_, Or.inl (hor.mpr hcp)⟩
      simp [membershipCount, hup, hdn, hol, hor, hcf, hin, hcp]
    | false =>
      rw [hst] at hcp
      simp only [Bool.false_eq_true, if_false] at hcp
      refine ⟨?_, Or.inr (hdn.mpr hcp)⟩
      simp [membershipCount, hup, hdn, hol, hor, hcf, hin, hcp]

/-- C9 witness: the partition property at a mixed concrete comparison. -/
theorem C9_witness :
    membershipCount (compareFileSets ⟨[⟨"a", "a", 1, 5000⟩], []⟩
      ⟨[⟨"i", "b", "b", 1, 7000⟩], []⟩ ⟨none, []⟩) "a" = 1
    ∧ membershipCount (compareFileSets ⟨[⟨"a", "a", 1, 5000⟩], []⟩
      ⟨[⟨"i", "b", "b", 1, 7000⟩], []⟩ ⟨none, []⟩) "b" = 1 := by
  have h1 := (C9_partition ⟨[⟨"a", "a", 1, 5000⟩], []⟩ ⟨[⟨"i", "b", "b", 1, 7000⟩], []⟩
    ⟨none, []⟩ "a" (by decide) (by decide)).1 (by decide)
  have h2 := (C9_partition ⟨[⟨"a", "a", 1, 5000⟩], []⟩ ⟨[⟨"i", "b", "b", 1, 7000⟩], []⟩
    ⟨none, []⟩ "b" (by decide) (by decide)).2 (by decide) (by decide)
  exact ⟨h1.1, h2.1⟩

/-! ### C3: exclusion pattern semantics -/

theorem chStarts_iff (s p : List Char) : chStarts s p = true ↔ ∃ t, s = p ++ t := by
  induction p generalizing s with
  | nil => simp [chStarts]
  | cons b bs ih =>
    cases s with
    | nil => simp [chStarts]
    | cons a as =>
      simp only [chStarts, Bool.and_eq_true, beq_iff_eq, ih, List.cons_append]
      constructor
      · rintro ⟨rfl, t, rfl⟩
        exact ⟨t, rfl⟩
      · rintro ⟨t, h⟩
        injection h with h1 h2
        exact ⟨h1, t, h2⟩

theorem chHasSub_iff (s p : List Char) : chHasSub s p = true ↔ ∃ a b, s = a ++ p ++ b := by
  induction s with
  | nil =>
    cases p with
    | nil => simp [chHasSub, chStarts]
    | cons c cs => simp [chHasSub, chStarts]
  | cons a as ih =>
    simp only [chHasSub, Bool.or_eq_true, chStarts_iff, ih]
    constructor
    · rintro (⟨t, ht⟩ | ⟨x, y, hxy⟩)
      · exact ⟨[], t, by simpa using ht⟩
      · exact ⟨a :: x, y, by simp [hxy]⟩
    · rintro ⟨x, y, hxy⟩
      cases x with
      | nil => exact Or.inl ⟨y, by simpa using hxy⟩
      | cons c xs =>
        simp only [List.cons_append] at hxy
        injection hxy with h1 h2
        exact Or.inr ⟨xs, y, h2⟩

theorem strExt {a b : String} (h : a.data = b.data) : a = b := by
  cases a
  cases b
  exact congrArg String.mk h

theorem strData_append (a b : String) : (a ++ b).data = a.data ++ b.data := by
  cases a
  cases b
  rfl

theorem strAppend_assoc (a b c : String) : a ++ b ++ c = a ++ (b ++ c) :=
  strExt (by simp [strData_append])

theorem strStarts_iff (s p : String) : strStarts s p = true ↔ ∃ t : String, s = p ++ t := by
  unfold strStarts
  rw [chStarts_iff]
  constructor
  · rintro ⟨t, ht⟩
    exact ⟨⟨t⟩, strExt (by rw [strData_append]; exact ht)⟩
  · rintro ⟨t, rfl⟩
    exact ⟨t.data, by rw [strData_append]⟩

theorem strEnds_iff (s p : String) : strEnds s p = true ↔ ∃ t : String, s = t ++ p := by
  unfold strEnds
  rw [chStarts_iff]
  constructor
  · rintro ⟨l, hl⟩
    refine ⟨⟨l.reverse⟩, strExt ?_⟩
    rw [strData_append]
    have := congrArg List.reverse hl
    simpa using this
  · rintro ⟨t, rfl⟩
    refine ⟨t.data.reverse, ?_⟩
    rw [strData_append]
    simp

theorem strHasSub_iff (s p : String) : strHasSub s p = true ↔ ∃ a b : String, s = a ++ p ++ b := by
  unfold strHasSub
  rw [chHasSub_iff]
  constructor
  · rintro ⟨x, y, hxy⟩
    refine ⟨⟨x⟩, ⟨y⟩, strExt ?_⟩
    simp only [strData_append]
    exact hxy
  · rintro ⟨a, b, rfl⟩
    exact ⟨a.data, b.data, by simp [strData_append]⟩

/-- C3 counterexample: the pattern `a*b` carries its wildcard in the middle
and the path `aXb` has the pre-star part as a prefix and the post-star part
as a suffix, so the claimed semantics require exclusion; `shouldExclude`
nevertheless returns `false`, because a middle wildcard falls through to the
literal/segment branch. -/
theorem C3_counterexample :
    ("a*b" : String) = "a" ++ "*" ++ "b"
    ∧ strStarts "aXb" "a" = true
    ∧ strEnds "aXb" "b" = true
    ∧ strStarts "a*b" "*" = false
    ∧ strEnds "a*b" "*" = false
    ∧ shouldExclude "aXb" ["a*b"] = false := by
  refine ⟨by decide, by decide, by decide, by decide, by decide, by decide⟩

/-- C3 (amended): `shouldExclude` returns true exactly when some pattern
matches as follows — a leading `*` matches the rest of the pattern as a
path suffix; otherwise a trailing `*` matches the rest as a path prefix;
any other pattern (including one with `*` in the middle, which gets no
wildcard treatment) matches only literally: exact equality, or occurrence
delimited by `/` or by the ends of the path. -/
theorem C3_amended (path : String) (patterns : List String) :
    shouldExclude path patterns = true ↔
      ∃ pattern ∈ patterns,
        (strStarts pattern "*" = true ∧ ∃ pre : String, path = pre ++ strTail pattern)
        ∨ (strStarts pattern "*" = false ∧ strEnds pattern "*" = true
            ∧ ∃ suf : String, path = strDropLast pattern ++ suf)
        ∨ (strStarts pattern "*" = false ∧ strEnds pattern "*" = false
            ∧ (path = pattern
               ∨ (∃ a b : String, path = a ++ ("/" ++ pattern ++ "/") ++ b)
               ∨ (∃ b : String, path = (pattern ++ "/") ++ b)
               ∨ (∃ a : String, path = a ++ ("/" ++ pattern)))) := by
  unfold shouldExclude
  rw [List.any_eq_true]
  constructor
  · rintro ⟨pattern, hmem, hp⟩
    refine ⟨pattern, hmem, ?_⟩
    cases hb1 : strStarts pattern "*" with
    | true =>
      rw [hb1, if_pos rfl] at hp
      exact Or.inl ⟨rfl, (strEnds_iff _ _).mp hp⟩
    | false =>
      rw [hb1] at hp
      simp only [Bool.false_eq_true, if_false] at hp
      cases hb2 : strEnds pattern "*" with
      | true =>
        rw [hb2, if_pos rfl] at hp
        exact Or.inr (Or.inl ⟨rfl, rfl, (strStarts_iff _ _).mp hp⟩)
      | false =>
        rw [hb2] at hp
        simp only [Bool.false_eq_true, if_false, Bool.or_eq_true, beq_iff_eq] at hp
        refine Or.inr (Or.inr ⟨rfl, rfl, ?_⟩)
        rcases hp with ((hp | hp) | hp) | hp
        · exact Or.inl hp
        · exact Or.inr (Or.inl ((strHasSub_iff _ _).mp hp))
        · exact Or.inr (Or.inr (Or.inl ((strStarts_iff _ _).mp hp)))
        · exact Or.inr (Or.inr (Or.inr ((strEnds_iff _ _).mp hp)))
  · rintro ⟨pattern, hmem, hp⟩
    refine ⟨pattern, hmem, ?_⟩
    rcases hp with ⟨hb1, hsuf⟩ | ⟨hb1, hb2, hpre⟩ | ⟨hb1, hb2, hseg⟩
    · rw [hb1, if_pos rfl]
      exact (strEnds_iff _ _).mpr hsuf
    · rw [hb1]
      simp only [Bool.false_eq_true, if_false]
      rw [hb2, if_pos rfl]
      exact (strStarts_iff _ _).mpr hpre
    · rw [hb1, hb2]
      simp only [Bool.false_eq_true, if_false, Bool.or_eq_true, beq_iff_eq]
      rcases hseg with hp | hp | hp | hp
      · exact Or.inl (Or.inl (Or.inl hp))
      · exact Or.inl (Or.inl (Or.inr ((strHasSub_iff _ _).mpr hp)))
      · exact Or.inl (Or.inr ((strStarts_iff _ _).mpr hp))
      · exact Or.inr ((strEnds_iff _ _).mpr hp)

/-! ### Executor phase characterizations -/

theorem foldl_push_done {α : Type} (files : List α) (acc : ActionLog α) :
    files.foldl (fun acc f => { acc with done := acc.done ++ [f] }) acc
      = ⟨acc.done ++ files, acc.errors, acc.effects⟩ := by
  induction files generalizing acc with
  | nil => simp
  | cons f fs ih => simp [ih]

theorem foldl_push_done_map {α β : Type} (g : α → β) (files : List α)
    (acc : ActionLog β) :
    files.foldl (fun acc f => { acc with done := acc.done ++ [g f] }) acc
      = ⟨acc.done ++ files.map g, acc.errors, acc.effects⟩ := by
  induction files generalizing acc with
  | nil => simp
  | cons f fs ih => simp [ih]

theorem foldl_wet_general {α β : Type} (g : α → β) (fails : α → Bool)
    (mkErr : α → SyncError) (mkFx : α → Effect) (files : List α) (acc : ActionLog β) :
    files.foldl (fun acc f =>
      if fails f then { acc with errors := acc.errors ++ [mkErr f] }
      else { acc with done := acc.done ++ [g f], effects := acc.effects ++ [mkFx f] }) acc
    = ⟨acc.done ++ (files.filter (fun f => !fails f)).map g,
       acc.errors ++ (files.filter (fun f => fails f)).map mkErr,
       acc.effects ++ (files.filter (fun f => !fails f)).map mkFx⟩ := by
  induction files generalizing acc with
  | nil => simp
  | cons f fs ih =>
    cases hf : fails f with
    | true =>
      simp only [List.foldl_cons, hf, if_true]
      rw [ih]
      simp [List.filter_cons, hf]
    | false =>
      simp only [List.foldl_cons, hf, Bool.false_eq_true, if_false]
      rw [ih]
      simp [List.filter_cons, hf]

theorem runActions_dry {α : Type} (fails : String → Bool) (errMsg : String → String)
    (actionName : String) (pathOf : α → String) (mkEffect : String → Effect)
    (files : List α) :
    runActions true fails errMsg actionName pathOf mkEffect files = ⟨files, [], []⟩ := by
  have h := foldl_push_done files (⟨[], [], []⟩ : ActionLog α)
  simpa using h

theorem runActions_wet_eq {α : Type} (fails : String → Bool) (errMsg : String → String)
    (actionName : String) (pathOf : α → String) (mkEffect : String → Effect)
    (files : List α) :
    runActions false fails errMsg actionName pathOf mkEffect files =
      ⟨files.filter (fun f => !fails (pathOf f)),
       (files.filter (fun f => fails (pathOf f))).map
         (fun f => ⟨actionName, pathOf f, errMsg (pathOf f)⟩),
       (files.filter (fun f => !fails (pathOf f))).map
         (fun f => mkEffect (pathOf f))⟩ := by
  have h := foldl_wet_general (fun (f : α) => f) (fun f => fails (pathOf f))
    (fun f => (⟨actionName, pathOf f, errMsg (pathOf f)⟩ : SyncError))
    (fun f => mkEffect (pathOf f)) files ⟨[], [], []⟩
  simpa [runActions] using h

theorem runActions_no_failure {α : Type} (fails : String → Bool) (errMsg : String → String)
    (actionName : String) (pathOf : α → String) (mkEffect : String → Effect)
    (files : List α) (h : ∀ f ∈ files, fails (pathOf f) = false) :
    runActions false fails errMsg actionName pathOf mkEffect files
      = ⟨files, [], files.map (fun f => mkEffect (pathOf f))⟩ := by
  rw [runActions_wet_eq]
  have hkeep : files.filter (fun f => !fails (pathOf f)) = files :=
    List.filter_eq_self.mpr (fun f hf => by simp [h f hf])
  have hdrop : files.filter (fun f => fails (pathOf f)) = [] :=
    List.filter_eq_nil_iff.mpr (fun f hf => by simp [h f hf])
  rw [hkeep, hdrop]
  rfl

theorem runConflicts_dry (env : DriveEnv) (strategy : String)
    (conflicts : List ConflictEntry) :
    runConflicts true env strategy conflicts
      = ⟨conflicts.map (fun c => ⟨c, (resolveConflict c strategy).resolution⟩), [], []⟩ := by
  have h := foldl_push_done_map
    (fun c => (⟨c, (resolveConflict c strategy).resolution⟩ : ResolvedConflict))
    conflicts ⟨[], [], []⟩
  simpa [runConflicts] using h

theorem runConflicts_wet_eq (env : DriveEnv) (strategy : String)
    (conflicts : List ConflictEntry) :
    runConflicts false env strategy conflicts =
      ⟨(conflicts.filter (fun c => !conflictFails env c strategy)).map
         (fun c => ⟨c, (resolveConflict c strategy).resolution⟩),
       (conflicts.filter (fun c => conflictFails env c strategy)).map
         (fun c => ⟨"resolve-conflict", c.path, env.errMsg c.path⟩),
       (conflicts.filter (fun c => !conflictFails env c strategy)).map
         (fun c => conflictEffect c strategy)⟩ := by
  have h := foldl_wet_general
    (fun c => (⟨c, (resolveConflict c strategy).resolution⟩ : ResolvedConflict))
    (fun c => conflictFails env c strategy)
    (fun c => (⟨"resolve-conflict", c.path, env.errMsg c.path⟩ : SyncError))
    (fun c => conflictEffect c strategy) conflicts ⟨[], [], []⟩
  simpa [runConflicts] using h

theorem runConflicts_no_failure (env : DriveEnv) (strategy : String)
    (conflicts : List ConflictEntry)
    (h : ∀ c ∈ conflicts, conflictFails env c strategy = false) :
    runConflicts false env strategy conflicts
      = ⟨conflicts.map (fun c => ⟨c, (resolveConflict c strategy).resolution⟩), [],
         conflicts.map (fun c => conflictEffect c strategy)⟩ := by
  rw [runConflicts_wet_eq]
  have hkeep : conflicts.filter (fun c => !conflictFails env c strategy) = conflicts :=
    List.filter_eq_self.mpr (fun c hc => by simp [h c hc])
  have hdrop : conflicts.filter (fun c => conflictFails env c strategy) = [] :=
    List.filter_eq_nil_iff.mpr (fun c hc => by simp [h c hc])
  rw [hkeep, hdrop]
  rfl

/-! ### Lookups into the rebuilt sync state -/

theorem uniquePaths_mem (ps : List String) (p : String) :
    p ∈ uniquePaths ps ↔ p ∈ ps := by
  unfold uniquePaths
  suffices H : ∀ acc, p ∈ ps.foldl insertUnique acc ↔ p ∈ acc ∨ p ∈ ps by
    rw [H []]
    simp
  intro acc
  induction ps generalizing acc with
  | nil => simp
  | cons a as ih =>
    rw [List.foldl_cons, ih]
    unfold insertUnique
    split_ifs with h
    · constructor
      · rintro (hp | hp)
        · exact Or.inl hp
        · exact Or.inr (List.mem_cons_of_mem a hp)
      · rintro (hp | hp)
        · exact Or.inl hp
        · rcases List.mem_cons.mp hp with rfl | hp
          · exact Or.inl h
          · exact Or.inr hp
    · simp [List.mem_append, List.mem_cons, or_assoc]

theorem find?_map_stateRecOf (L : LocalFileSet) (R : RemoteFileSet)
    (l : List String) (p : String) :
    (l.map (stateRecOf L R)).find? (fun x => StateRec.path x == p)
      = if p ∈ l then some (stateRecOf L R p) else none := by
  induction l with
  | nil => simp
  | cons a as ih =>
    by_cases h : a = p
    · subst h
      rw [List.map_cons, List.find?_cons_of_pos _ (by simp [stateRecOf])]
      simp
    · rw [List.map_cons, List.find?_cons_of_neg _ (by simp [stateRecOf, h]), ih]
      have hiff : p ∈ a :: as ↔ p ∈ as := by
        constructor
        · intro hp
          rcases List.mem_cons.mp hp with rfl | hp
          · exact absurd rfl h
          · exact hp
        · exact List.mem_cons_of_mem a
      simp [hiff]

theorem findState_buildSyncState (L : LocalFileSet) (R : RemoteFileSet)
    (now : String) (p : String) :
    findState (buildSyncState L R now).files p
      = if p ∈ L.files.map LocalFile.path ++ R.files.map RemoteFile.path
        then some (stateRecOf L R p) else none := by
  unfold buildSyncState findState findByPath
  rw [find?_map_stateRecOf]
  by_cases h : p ∈ L.files.map LocalFile.path ++ R.files.map RemoteFile.path
  · rw [if_pos ((uniquePaths_mem _ _).mpr h), if_pos h]
  · rw [if_neg (fun hc => h ((uniquePaths_mem _ _).mp hc)), if_neg h]

/-! ### Environments and projections used by concrete runs -/

/-- An environment in which every transfer succeeds. -/
def allOkEnv : DriveEnv :=
  { uploadFails := fun _ => false
    downloadFails := fun _ => false
    deleteRemoteFails := fun _ => false
    deleteLocalFails := fun _ => false
    errMsg := fun _ => "boom"
    uploadMtime := fun _ => 0
    uploadId := fun _ => "new-id"
    downloadMtime := fun _ => 0 }

/-- An environment in which uploading `a.txt` throws. -/
def failUploadEnv : DriveEnv :=
  { allOkEnv with uploadFails := fun p => p == "a.txt" }

/-- The effect trace of a pass, `[]` for an aborted pass. -/
def effectsOf : Except String SyncOutcome → List Effect
  | .ok o => o.effects
  | .error _ => []

/-- The state written at pass end, `none` for an aborted or dry pass. -/
def savedStateOf : Except String SyncOutcome → Option SyncState
  | .ok o => o.savedState
  | .error _ => none

/-- The `results.errors` list of a pass, `[]` for an aborted pass. -/
def resultErrorsOf : Except String SyncOutcome → List SyncError
  | .ok o => o.results.errors
  | .error _ => []

/-! ### C10: missing local path -/

/-- C10: when the local path does not exist, direction `up` makes `sync`
throw an error naming the local path (no outcome, hence no effects and no
state write), while directions `down` and `both` create the local directory
and proceed to a normal pass over an empty local tree. -/
theorem C10_missing_local (localPath : String) (localScan : LocalFileSet)
    (remoteSet : RemoteFileSet) (stateContents : Option String)
    (parse : String → Option SyncState) (env : DriveEnv) (now : String)
    (opts : SyncOptions) :
    (opts.direction = "up" →
      sync localPath false localScan remoteSet stateContents parse env now opts
        = .error ("Local path does not exist: " ++ localPath))
    ∧ ((opts.direction = "down" ∨ opts.direction = "both") →
      ∃ o, sync localPath false localScan remoteSet stateContents parse env now opts
          = .ok o ∧ Effect.mkdirLocal localPath ∈ o.effects) := by
  constructor
  · intro hdir
    unfold sync
    rw [if_pos]
    constructor
    · simp
    · rw [hdir]
      decide
  · intro hdir
    unfold sync
    rw [if_neg (by simp [hdir])]
    refine ⟨_, rfl, ?_⟩
    simp

/-- C10 witness: the two behaviours at concrete inputs. -/
theorem C10_witness :
    sync "/data" false emptyLocalSet ⟨[], []⟩ none failingParse allOkEnv "T"
      ⟨"up", false, false, [], "newer"⟩ = .error ("Local path does not exist: " ++ "/data")
    ∧ Effect.mkdirLocal "/data" ∈ effectsOf (sync "/data" false emptyLocalSet ⟨[], []⟩
        none failingParse allOkEnv "T" ⟨"both", false, false, [], "newer"⟩) := by
  have h1 := (C10_missing_local "/data" emptyLocalSet ⟨[], []⟩ none failingParse
    allOkEnv "T" ⟨"up", false, false, [], "newer"⟩).1 rfl
  obtain ⟨o, hok, hmem⟩ := (C10_missing_local "/data" emptyLocalSet ⟨[], []⟩ none
    failingParse allOkEnv "T" ⟨"both", false, false, [], "newer"⟩).2 (Or.inr rfl)
  refine ⟨h1, ?_⟩
  rw [hok] at *
  simpa [effectsOf] using hmem

/-! ### C4: dry-run purity -/

/-- C4 counterexample: a dry run over a missing local path still creates the
local directory — a filesystem mutation — because the `mkdirSync` at
sync.js:54 runs before any dry-run check. -/
theorem C4_counterexample :
    effectsOf (sync "/data" false emptyLocalSet ⟨[], []⟩ none failingParse allOkEnv "T"
        ⟨"both", false, true, [], "newer"⟩) = [Effect.mkdirLocal "/data"]
    ∧ [Effect.mkdirLocal "/data"] ≠ ([] : List Effect) := by
  constructor
  · rfl
  · decide

/-- C4 (amended): over identical inputs with no transfer failures, a dry run
returns exactly the `results` data a wet run returns; the dry run writes no
state and performs no effect other than creating the local directory when it
was missing (which happens regardless of the dry-run flag). -/
theorem C4_dry_run_purity (localPath : String) (localExists : Bool)
    (localScan : LocalFileSet) (remoteSet : RemoteFileSet)
    (stateContents : Option String) (parse : String → Option SyncState)
    (env : DriveEnv) (now : String) (opts : SyncOptions)
    (hu : ∀ p, env.uploadFails p = false)
    (hd : ∀ p, env.downloadFails p = false)
    (hdr : ∀ p, env.deleteRemoteFails p = false)
    (hdl : ∀ p, env.deleteLocalFails p = false) :
    ((sync localPath localExists localScan remoteSet stateContents parse env now
        { opts with dryRun := true }).map SyncOutcome.results
      = (sync localPath localExists localScan remoteSet stateContents parse env now
        { opts with dryRun := false }).map SyncOutcome.results)
    ∧ (∀ o, sync localPath localExists localScan remoteSet stateContents parse env now
        { opts with dryRun := true } = .ok o →
        o.savedState = none
        ∧ o.effects = (if localExists then [] else [Effect.mkdirLocal localPath])) := by
  have e1 : ∀ (X : List LocalFile),
      runActions false env.uploadFails env.errMsg "upload" (fun f => f.path)
        Effect.upload X = ⟨X, [], X.map (fun f => Effect.upload f.path)⟩ :=
    fun X => runActions_no_failure _ _ _ _ _ _ (fun f _ => hu _)
  have e2 : ∀ (X : List RemoteFile),
      runActions false env.downloadFails env.errMsg "download" (fun f => f.path)
        Effect.download X = ⟨X, [], X.map (fun f => Effect.download f.path)⟩ :=
    fun X => runActions_no_failure _ _ _ _ _ _ (fun f _ => hd _)
  have e3 : ∀ (X : List RemoteFile),
      runActions false env.deleteRemoteFails env.errMsg "delete-remote" (fun f => f.path)
        Effect.deleteRemote X = ⟨X, [], X.map (fun f => Effect.deleteRemote f.path)⟩ :=
    fun X => runActions_no_failure _ _ _ _ _ _ (fun f _ => hdr _)
  have e4 : ∀ (X : List LocalFile),
      runActions false env.deleteLocalFails env.errMsg "delete-local" (fun f => f.path)
        Effect.deleteLocal X = ⟨X, [], X.map (fun f => Effect.deleteLocal f.path)⟩ :=
    fun X => runActions_no_failure _ _ _ _ _ _ (fun f _ => hdl _)
  have hcf : ∀ c strat, conflictFails env c strat = false := by
    intro c strat
    unfold conflictFails
    cases (resolveConflict c strat).action
    · exact hu _
    · exact hd _
  have e5 : ∀ (strat : String) (X : List ConflictEntry),
      runConflicts false env strat X
        = ⟨X.map (fun c => ⟨c, (resolveConflict c strat).resolution⟩), [],
           X.map (fun c => conflictEffect c strat)⟩ :=
    fun strat X => runConflicts_no_failure _ _ _ (fun c _ => hcf c strat)
  by_cases hc : ¬ localExists ∧ ¬ (opts.direction = "down" ∨ opts.direction = "both")
  · constructor
    · unfold sync
      rw [if_pos hc, if_pos hc]
    · intro o ho
      unfold sync at ho
      rw [if_pos hc] at ho
      exact absurd ho (by simp)
  · constructor
    · unfold sync
      rw [if_neg hc, if_neg hc]
      simp only [Except.map, e1, e2, e3, e4, e5, runActions_dry, runConflicts_dry]
      simp [apply_ite ActionLog.done, apply_ite ActionLog.errors,
        apply_ite ActionLog.effects]
    · intro o ho
      unfold sync at ho
      rw [if_neg hc] at ho
      simp only [runActions_dry, runConflicts_dry] at ho
      rw [Except.ok.injEq] at ho
      subst ho
      constructor
      · simp
      · simp [apply_ite ActionLog.effects]

/-- C4 witness: a one-file upload scenario where the dry run and the wet run
return identical results and the dry run leaves no trace beyond reporting. -/
theorem C4_witness :
    ((sync "/data" true ⟨[⟨"a.txt", "a.txt", 3, 5000⟩], []⟩ ⟨[], []⟩ none failingParse
        allOkEnv "T" ⟨"both", false, true, [], "newer"⟩).map SyncOutcome.results
      = (sync "/data" true ⟨[⟨"a.txt", "a.txt", 3, 5000⟩], []⟩ ⟨[], []⟩ none failingParse
        allOkEnv "T" ⟨"both", false, false, [], "newer"⟩).map SyncOutcome.results)
    ∧ savedStateOf (sync "/data" true ⟨[⟨"a.txt", "a.txt", 3, 5000⟩], []⟩ ⟨[], []⟩ none
        failingParse allOkEnv "T" ⟨"both", false, true, [], "newer"⟩) = none
    ∧ effectsOf (sync "/data" true ⟨[⟨"a.txt", "a.txt", 3, 5000⟩], []⟩ ⟨[], []⟩ none
        failingParse allOkEnv "T" ⟨"both", false, true, [], "newer"⟩) = [] := by
  have h := C4_dry_run_purity "/data" true ⟨[⟨"a.txt", "a.txt", 3, 5000⟩], []⟩ ⟨[], []⟩
    none failingParse allOkEnv "T" ⟨"both", false, true, [], "newer"⟩
    (fun _ => rfl) (fun _ => rfl) (fun _ => rfl) (fun _ => rfl)
  refine ⟨h.1, ?_⟩
  obtain ⟨o, ho⟩ : ∃ o, sync "/data" true ⟨[⟨"a.txt", "a.txt", 3, 5000⟩], []⟩ ⟨[], []⟩
      none failingParse allOkEnv "T"
      ({ direction := "both", deleteOrphans := false, dryRun := true, exclude := [],
         conflictResolution := "newer" } : SyncOptions) = .ok o := by
    unfold sync
    rw [if_neg (by simp)]
    exact ⟨_, rfl⟩
  obtain ⟨h1, h2⟩ := h.2 o ho
  constructor
  · rw [ho]
    simpa [savedStateOf] using h1
  · rw [ho]
    simpa [effectsOf] using h2

/-! ### C1: the persisted state ignores action outcomes -/

/-- C1 counterexample: a new local file `a.txt` whose upload fails still
receives a state record (with its local mtime), and the immediately
following pass classifies it `onlyLocal`, not `toUpload`. -/
theorem C1_counterexample :
    savedStateOf (sync "/d" true ⟨[⟨"a.txt", "a.txt", 3, 5000⟩], []⟩ ⟨[], []⟩ none
        failingParse failUploadEnv "T" ⟨"both", false, false, [], "newer"⟩)
      = some (buildSyncState ⟨[⟨"a.txt", "a.txt", 3, 5000⟩], []⟩ ⟨[], []⟩ "T")
    ∧ (⟨"upload", "a.txt", "boom"⟩ : SyncError) ∈ resultErrorsOf
        (sync "/d" true ⟨[⟨"a.txt", "a.txt", 3, 5000⟩], []⟩ ⟨[], []⟩ none
          failingParse failUploadEnv "T" ⟨"both", false, false, [], "newer"⟩)
    ∧ (buildSyncState ⟨[⟨"a.txt", "a.txt", 3, 5000⟩], []⟩ ⟨[], []⟩ "T").files
      = [⟨"a.txt", 5000, some 3, none⟩]
    ∧ classifyPath [⟨"a.txt", "a.txt", 3, 5000⟩] []
        (buildSyncState ⟨[⟨"a.txt", "a.txt", 3, 5000⟩], []⟩ ⟨[], []⟩ "T").files "a.txt"
      = .onlyLocal
    ∧ "a.txt" ∈ (compareFileSets ⟨[⟨"a.txt", "a.txt", 3, 5000⟩], []⟩ ⟨[], []⟩
        (buildSyncState ⟨[⟨"a.txt", "a.txt", 3, 5000⟩], []⟩ ⟨[], []⟩ "T")).onlyLocal.map
          LocalFile.path
    ∧ "a.txt" ∉ (compareFileSets ⟨[⟨"a.txt", "a.txt", 3, 5000⟩], []⟩ ⟨[], []⟩
        (buildSyncState ⟨[⟨"a.txt", "a.txt", 3, 5000⟩], []⟩ ⟨[], []⟩ "T")).toUpload.map
          LocalFile.path := by
  decide

/-- C1 (amended): a non-dry pass always persists `buildSyncState` of the two
pre-execution scans, independent of transfer outcomes; consequently, a new
local file whose upload failed still receives a state record (whose time is
`max` of its local mtime and 0), it is reported in `errors` and absent from
`uploaded`, and the next pass over unchanged trees classifies its path
`onlyLocal` rather than `toUpload`. -/
theorem C1_prescan_state (localPath : String) (L : LocalFileSet) (R : RemoteFileSet)
    (stateContents : Option String) (parse : String → Option SyncState)
    (env : DriveEnv) (now : String) (opts : SyncOptions) (p : String) (lf : LocalFile)
    (hnl : (L.files.map LocalFile.path).Nodup)
    (hdry : opts.dryRun = false) (hdir : opts.direction = "both")
    (hl : findLocal L.files p = some lf)
    (hr : findRemote R.files p = none)
    (hs : findState (loadSyncState stateContents parse).files p = none)
    (hfail : env.uploadFails p = true) :
    (∀ o, sync localPath true L R stateContents parse env now opts = .ok o →
        o.savedState = some (buildSyncState L R now)
        ∧ (⟨"upload", p, env.errMsg p⟩ : SyncError) ∈ o.results.errors
        ∧ lf ∉ o.results.uploaded)
    ∧ findState (buildSyncState L R now).files p = some (stateRecOf L R p)
    ∧ (stateRecOf L R p).modifiedTime = max lf.modifiedTime 0
    ∧ classifyPath L.files R.files (buildSyncState L R now).files p = .onlyLocal
    ∧ p ∈ (compareFileSets L R (buildSyncState L R now)).onlyLocal.map LocalFile.path
    ∧ p ∉ (compareFileSets L R (buildSyncState L R now)).toUpload.map LocalFile.path := by
  have hpath : lf.path = p := (findByPath_pathOf _ _ _ _ hl).2
  have hmem : lf ∈ L.files := (findByPath_pathOf _ _ _ _ hl).1
  have hr' : findRemote R.files lf.path = none := by rw [hpath]; exact hr
  have hclassUp : localFileClass R.files (loadSyncState stateContents parse).files lf
      = .toUpload := by
    rw [localFileClass_remote_none hr', if_neg (by rw [hpath, hs]; simp)]
  have hupmem : lf ∈ (compareFileSets L R (loadSyncState stateContents parse)).toUpload := by
    rw [compareFileSets_eq]
    refine List.mem_flatMap.mpr ⟨lf, hmem, ?_⟩
    unfold upContrib
    rw [if_pos hclassUp]
    simp
  have hmempath : p ∈ L.files.map LocalFile.path ++ R.files.map RemoteFile.path :=
    List.mem_append_left _ (List.mem_map.mpr ⟨lf, hmem, hpath⟩)
  have hfind : findState (buildSyncState L R now).files p = some (stateRecOf L R p) := by
    rw [findState_buildSyncState, if_pos hmempath]
  have hnext : classifyPath L.files R.files (buildSyncState L R now).files p
      = .onlyLocal := by
    rw [classifyPath_of_some hl, localFileClass_remote_none hr', if_pos]
    rw [hpath, hfind]
    rfl
  refine ⟨?_, hfind, ?_, hnext,
    (mem_path_onlyLocal_iff L R _ p hnl).mpr hnext, ?_⟩
  · intro o ho
    unfold sync at ho
    rw [if_neg (by simp)] at ho
    simp only [] at ho
    rw [Except.ok.injEq] at ho
    subst ho
    have hif : (opts.direction = "up" ∨ opts.direction = "both") := Or.inr hdir
    refine ⟨by simp [hdry], ?_, ?_⟩
    · simp only [List.mem_append]
      refine Or.inl (Or.inl (Or.inl (Or.inl ?_)))
      rw [if_pos hif, hdry, runActions_wet_eq]
      refine List.mem_map.mpr ⟨lf, List.mem_filter.mpr ⟨hupmem, ?_⟩, ?_⟩
      · rw [hpath]
        exact hfail
      · rw [hpath]
    · rw [if_pos hif, hdry, runActions_wet_eq]
      intro hdone
      have hpred := (List.mem_filter.mp hdone).2
      rw [hpath, hfail] at hpred
      simp at hpred
  · simp [stateRecOf, hl, hr]
  · intro hmemUp
    exact FileClass.noConfusion
      (hnext.symm.trans ((mem_path_toUpload_iff L R _ p hnl).mp hmemUp))

/-- C1 witness: the amended theorem at the concrete failed-upload run. -/
theorem C1_witness :
    findState (buildSyncState ⟨[⟨"a.txt", "a.txt", 3, 5000⟩], []⟩ ⟨[], []⟩ "T").files "a.txt"
      = some (stateRecOf ⟨[⟨"a.txt", "a.txt", 3, 5000⟩], []⟩ ⟨[], []⟩ "a.txt")
    ∧ (stateRecOf ⟨[⟨"a.txt", "a.txt", 3, 5000⟩], []⟩ ⟨[], []⟩ "a.txt").modifiedTime
      = max 5000 0
    ∧ classifyPath [⟨"a.txt", "a.txt", 3, 5000⟩] []
        (buildSyncState ⟨[⟨"a.txt", "a.txt", 3, 5000⟩], []⟩ ⟨[], []⟩ "T").files "a.txt"
      = .onlyLocal
    ∧ "a.txt" ∉ (compareFileSets ⟨[⟨"a.txt", "a.txt", 3, 5000⟩], []⟩ ⟨[], []⟩
        (buildSyncState ⟨[⟨"a.txt", "a.txt", 3, 5000⟩], []⟩ ⟨[], []⟩ "T")).toUpload.map
          LocalFile.path
    ∧ (⟨"upload", "a.txt", "boom"⟩ : SyncError) ∈ resultErrorsOf
        (sync "/w" true ⟨[⟨"a.txt", "a.txt", 3, 5000⟩], []⟩ ⟨[], []⟩ none failingParse
          failUploadEnv "T" ⟨"both", false, false, [], "newer"⟩) := by
  have h := C1_prescan_state "/w" ⟨[⟨"a.txt", "a.txt", 3, 5000⟩], []⟩ ⟨[], []⟩ none
    failingParse failUploadEnv "T" ⟨"both", false, false, [], "newer"⟩ "a.txt"
    ⟨"a.txt", "a.txt", 3, 5000⟩ (by decide) rfl rfl (by decide) (by decide)
    (by decide) (by decide)
  obtain ⟨o, ho⟩ : ∃ o, sync "/w" true ⟨[⟨"a.txt", "a.txt", 3, 5000⟩], []⟩ ⟨[], []⟩ none
      failingParse failUploadEnv "T"
      ({ direction := "both", deleteOrphans := false, dryRun := false, exclude := [],
         conflictResolution := "newer" } : SyncOptions) = .ok o := by
    unfold sync
    rw [if_neg (by simp)]
    exact ⟨_, rfl⟩
  obtain ⟨hsv, herr, hnup⟩ := h.1 o ho
  refine ⟨h.2.1, h.2.2.1, h.2.2.2.1, h.2.2.2.2.2, ?_⟩
  rw [ho]
  simpa [resultErrorsOf] using herr

/-! ### C5: idempotence of a second pass

The executor mutates external stores, so the trees a second pass scans are
modelled from the spec's collaborator contract (spec sections 5 and 6): a
download writes a local copy whose mtime the filesystem reports, an upload
creates or updates the remote copy whose mtime the store reports, and
orphan deletion removes the copy.  `DriveEnv.uploadMtime`/`downloadMtime`
are those store-reported times. -/

/-- The local file observed after downloading `rf`. -/
def downloadedLocalFile (env : DriveEnv) (rf : RemoteFile) : LocalFile :=
  { name := rf.name, path := rf.path, size := rf.size
    modifiedTime := env.downloadMtime rf.path }

/-- The remote file observed after uploading `lf` (updating `prev` in place
when a same-path remote copy existed). -/
def uploadedRemoteFile (env : DriveEnv) (prev : Option RemoteFile) (lf : LocalFile) :
    RemoteFile :=
  { id := match prev with
          | some rf => rf.id
          | none => env.uploadId lf.path
    name := lf.name, path := lf.path, size := lf.size
    modifiedTime := env.uploadMtime lf.path }

/-- The local-side lookup after a successful `both` pass executed every
classified action. -/
def postLocalAt (L : LocalFileSet) (R : RemoteFileSet) (st : List StateRec)
    (strategy : String) (deleteOrphans : Bool) (env : DriveEnv) (p : String) :
    Option LocalFile :=
  match classifyPath L.files R.files st p with
  | .absent => none
  | .toUpload => findLocal L.files p
  | .inSync => findLocal L.files p
  | .onlyLocal => if deleteOrphans then none else findLocal L.files p
  | .onlyRemote => none
  | .toDownload => (findRemote R.files p).map (downloadedLocalFile env)
  | .conflict =>
    match findLocal L.files p, findRemote R.files p with
    | some lf, some rf =>
      if (resolveConflict ⟨p, lf, rf⟩ strategy).action = .uploadLocal then some lf
      else some (downloadedLocalFile env rf)
    | _, _ => none

/-- The remote-side lookup after a successful `both` pass executed every
classified action. -/
def postRemoteAt (L : LocalFileSet) (R : RemoteFileSet) (st : List StateRec)
    (strategy : String) (deleteOrphans : Bool) (env : DriveEnv) (p : String) :
    Option RemoteFile :=
  match classifyPath L.files R.files st p with
  | .absent => none
  | .toUpload => (findLocal L.files p).map (uploadedRemoteFile env (findRemote R.files p))
  | .inSync => findRemote R.files p
  | .onlyLocal => none
  | .onlyRemote => if deleteOrphans then none else findRemote R.files p
  | .toDownload => findRemote R.files p
  | .conflict =>
    match findLocal L.files p, findRemote R.files p with
    | some lf, some rf =>
      if (resolveConflict ⟨p, lf, rf⟩ strategy).action = .uploadLocal then
        some (uploadedRemoteFile env (some rf) lf)
      else some rf
    | _, _ => none

/-- The local tree of the first pass of the C5 counterexample: a new file
`f.txt` and a previously synced file `g.txt` whose remote copy is gone. -/
def c5Local : LocalFileSet :=
  ⟨[⟨"f.txt", "f.txt", 1, 10000⟩, ⟨"g.txt", "g.txt", 1, 8000⟩], []⟩

/-- The prior state of the first pass: only `g.txt` was synced before. -/
def c5State : SyncState := ⟨none, [⟨"g.txt", 8000, none, none⟩]⟩

/-- An all-success environment whose store stamps uploads with a fresh
timestamp (100000), as a real store reporting the upload time does. -/
def freshEnv : DriveEnv := { allOkEnv with uploadMtime := fun _ => 100000 }

/-- The remote tree the second pass scans: exactly the copy the first pass
uploaded, carrying the store-reported timestamp. -/
def c5Remote2 : RemoteFileSet :=
  ⟨[uploadedRemoteFile freshEnv none ⟨"f.txt", "f.txt", 1, 10000⟩], []⟩

/-- `JSON.parse` of the pass-1 sidecar file. -/
def c5Parse1 : String → Option SyncState := fun _ => some c5State

/-- `JSON.parse` of the sidecar file written by the first pass. -/
def c5Parse2 : String → Option SyncState :=
  fun _ => some (buildSyncState c5Local ⟨[], []⟩ "T")

/-- The `downloaded` count of a pass, 0 for an aborted pass. -/
def downloadedCountOf : Except String SyncOutcome → Nat
  | .ok o => o.results.downloaded.length
  | .error _ => 0

/-- C5 counterexample: the first `both` pass over `c5Local` succeeds with
zero errors (it uploads `f.txt`, touches nothing locally, and leaves the
orphan `g.txt` alone since deletion is off); with both trees unchanged
afterward, the second pass classifies `f.txt` `toDownload` (the store
stamped the uploaded copy 100000 while the saved record says 10000) and
downloads it, and `g.txt` is classified `onlyLocal`, not `inSync` — so the
second pass neither classifies every path `inSync` nor produces zero
download actions. -/
theorem C5_counterexample :
    resultErrorsOf (sync "/s" true c5Local ⟨[], []⟩ (some "st") c5Parse1 freshEnv "T"
        ⟨"both", false, false, [], "newer"⟩) = []
    ∧ effectsOf (sync "/s" true c5Local ⟨[], []⟩ (some "st") c5Parse1 freshEnv "T"
        ⟨"both", false, false, [], "newer"⟩) = [Effect.upload "f.txt", Effect.writeState]
    ∧ savedStateOf (sync "/s" true c5Local ⟨[], []⟩ (some "st") c5Parse1 freshEnv "T"
        ⟨"both", false, false, [], "newer"⟩) = some (buildSyncState c5Local ⟨[], []⟩ "T")
    ∧ "f.txt" ∈ (compareFileSets c5Local c5Remote2
        (buildSyncState c5Local ⟨[], []⟩ "T")).toDownload.map RemoteFile.path
    ∧ "g.txt" ∉ (compareFileSets c5Local c5Remote2
        (buildSyncState c5Local ⟨[], []⟩ "T")).inSync.map InSyncEntry.path
    ∧ downloadedCountOf (sync "/s" true c5Local c5Remote2 (some "st2") c5Parse2 freshEnv
        "T2" ⟨"both", false, false, [], "newer"⟩) = 1 := by
  decide

/-! ### Inversion lemmas for `classifyPath` -/

theorem classifyPath_absent_inv {ls : List LocalFile} {rs : List RemoteFile}
    {st : List StateRec} {p : String} (h : classifyPath ls rs st p = .absent) :
    findLocal ls p = none ∧ findRemote rs p = none := by
  cases hfl : findLocal ls p with
  | some lf =>
    rw [classifyPath_of_some hfl] at h
    exact absurd h (localFileClass_ne_absent _ _ _)
  | none =>
    refine ⟨rfl, ?_⟩
    rw [classifyPath_of_none hfl] at h
    cases hfr : findRemote rs p with
    | none => rfl
    | some rf => rw [hfr] at h; split_ifs at h

theorem classifyPath_onlyLocal_inv {ls : List LocalFile} {rs : List RemoteFile}
    {st : List StateRec} {p : String} (h : classifyPath ls rs st p = .onlyLocal) :
    (∃ lf, findLocal ls p = some lf ∧ lf.path = p) ∧ findRemote rs p = none := by
  cases hfl : findLocal ls p with
  | none =>
    rw [classifyPath_of_none hfl] at h
    cases hfr : findRemote rs p with
    | none => rw [hfr] at h; simp at h
    | some rf => rw [hfr] at h; split_ifs at h
  | some lf =>
    refine ⟨⟨lf, rfl, (findByPath_pathOf _ _ _ _ hfl).2⟩, ?_⟩
    rw [classifyPath_of_some hfl] at h
    have hpath := (findByPath_pathOf _ _ _ _ hfl).2
    cases hfr : findRemote rs lf.path with
    | none => rw [← hpath]; exact hfr
    | some rf =>
      cases hs : findState st lf.path with
      | some sr => rw [localFileClass_state_some hfr hs] at h; split_ifs at h
      | none => rw [localFileClass_state_none hfr hs] at h; split_ifs at h

theorem classifyPath_onlyRemote_inv {ls : List LocalFile} {rs : List RemoteFile}
    {st : List StateRec} {p : String} (h : classifyPath ls rs st p = .onlyRemote) :
    findLocal ls p = none ∧ (∃ rf, findRemote rs p = some rf ∧ rf.path = p) := by
  cases hfl : findLocal ls p with
  | some lf =>
    rw [classifyPath_of_some hfl] at h
    exact absurd h (localFileClass_ne_onlyRemote _ _ _)
  | none =>
    refine ⟨rfl, ?_⟩
    rw [classifyPath_of_none hfl] at h
    cases hfr : findRemote rs p with
    | none => rw [hfr] at h; simp at h
    | some rf => exact ⟨rf, rfl, (findByPath_pathOf _ _ _ _ hfr).2⟩

theorem not_mem_paths_of_findByPath_none {α : Type} (pathOf : α → String)
    (l : List α) (p : String) (h : findByPath pathOf l p = none) :
    p ∉ l.map pathOf := by
  intro hp
  obtain ⟨x, hx, rfl⟩ := List.mem_map.mp hp
  have := List.find?_eq_none.mp h x hx
  simp at this

/-- A path with both sides present and both modification times at most the
state record's time classifies `inSync`. -/
theorem classify_inSync_of_bounds {ls₂ : List LocalFile} {rs₂ : List RemoteFile}
    {st₂ : List StateRec} {p : String} {lf₂ : LocalFile} {rf₂ : RemoteFile}
    {sr : StateRec} (hfl : findLocal ls₂ p = some lf₂)
    (hfr : findRemote rs₂ p = some rf₂) (hs : findState st₂ p = some sr)
    (hlm : lf₂.modifiedTime ≤ sr.modifiedTime)
    (hrm : rf₂.modifiedTime ≤ sr.modifiedTime) :
    classifyPath ls₂ rs₂ st₂ p = .inSync := by
  have hpath := (findByPath_pathOf _ _ _ _ hfl).2
  rw [classifyPath_of_some hfl,
    localFileClass_state_some (by rw [hpath]; exact hfr) (by rw [hpath]; exact hs),
    if_neg (by omega), if_neg (by omega), if_neg (by omega)]

/-- After a successful `both` pass whose transfers preserved modification
times, every path classifies `absent`, `inSync`, or (with orphan deletion
off) `onlyLocal`/`onlyRemote` in the next pass — never a transfer class. -/
theorem postPass_classify (L : LocalFileSet) (R : RemoteFileSet) (st1 : List StateRec)
    (strategy : String) (flag : Bool) (env : DriveEnv) (now : String)
    (L₂ : LocalFileSet) (R₂ : RemoteFileSet)
    (hpostL : ∀ p, findLocal L₂.files p = postLocalAt L R st1 strategy flag env p)
    (hpostR : ∀ p, findRemote R₂.files p = postRemoteAt L R st1 strategy flag env p)
    (hupmt : ∀ p lf, findLocal L.files p = some lf → env.uploadMtime p = lf.modifiedTime)
    (hdnmt : ∀ p rf, findRemote R.files p = some rf → env.downloadMtime p = rf.modifiedTime)
    (p : String) :
    classifyPath L₂.files R₂.files (buildSyncState L R now).files p = .absent
    ∨ classifyPath L₂.files R₂.files (buildSyncState L R now).files p = .inSync
    ∨ (classifyPath L₂.files R₂.files (buildSyncState L R now).files p = .onlyLocal
        ∧ flag = false)
    ∨ (classifyPath L₂.files R₂.files (buildSyncState L R now).files p = .onlyRemote
        ∧ flag = false) := by
  have hL2 := hpostL p
  have hR2 := hpostR p
  have hst2 := findState_buildSyncState L R now p
  have hrecL : ∀ lf, findLocal L.files p = some lf →
      lf.modifiedTime ≤ (stateRecOf L R p).modifiedTime := by
    intro lf h
    simp only [stateRecOf]
    rw [h]
    exact le_max_left _ _
  have hrecR : ∀ rf, findRemote R.files p = some rf →
      rf.modifiedTime ≤ (stateRecOf L R p).modifiedTime := by
    intro rf h
    simp only [stateRecOf]
    rw [h]
    exact le_max_right _ _
  have hmemOfL : ∀ lf, findLocal L.files p = some lf →
      findState (buildSyncState L R now).files p = some (stateRecOf L R p) := by
    intro lf h
    rw [hst2, if_pos (List.mem_append_left _ (List.mem_map.mpr
      ⟨lf, (findByPath_pathOf _ _ _ _ h).1, (findByPath_pathOf _ _ _ _ h).2⟩))]
  have hmemOfR : ∀ rf, findRemote R.files p = some rf →
      findState (buildSyncState L R now).files p = some (stateRecOf L R p) := by
    intro rf h
    rw [hst2, if_pos (List.mem_append_right _ (List.mem_map.mpr
      ⟨rf, (findByPath_pathOf _ _ _ _ h).1, (findByPath_pathOf _ _ _ _ h).2⟩))]
  cases hcl : classifyPath L.files R.files st1 p with
  | absent =>
    have hL2' : findLocal L₂.files p = none := by
      rw [hL2]
      unfold postLocalAt
      rw [hcl]
    have hR2' : findRemote R₂.files p = none := by
      rw [hR2]
      unfold postRemoteAt
      rw [hcl]
    exact Or.inl (by rw [classifyPath_of_none hL2', hR2'])
  | toUpload =>
    cases hfl₁ : findLocal L.files p with
    | none =>
      have hcl0 := hcl
      rw [classifyPath_of_none hfl₁] at hcl0
      cases hfr₁ : findRemote R.files p with
      | none => rw [hfr₁] at hcl0; simp at hcl0
      | some rf => rw [hfr₁] at hcl0; split_ifs at hcl0
    | some lf =>
      have hpath := (findByPath_pathOf _ _ _ _ hfl₁).2
      have hL2' : findLocal L₂.files p = some lf := by
        rw [hL2]
        unfold postLocalAt
        rw [hcl]
        exact hfl₁
      have hR2' : findRemote R₂.files p
          = some (uploadedRemoteFile env (findRemote R.files p) lf) := by
        rw [hR2]
        unfold postRemoteAt
        rw [hcl]
        simp only [hfl₁, Option.map_some']
      refine Or.inr (Or.inl (classify_inSync_of_bounds hL2' hR2'
        (hmemOfL lf hfl₁) (hrecL lf hfl₁) ?_))
      have hm : (uploadedRemoteFile env (findRemote R.files p) lf).modifiedTime
          = env.uploadMtime lf.path := rfl
      rw [hm, hpath, hupmt p lf hfl₁]
      exact hrecL lf hfl₁
  | inSync =>
    cases hfl₁ : findLocal L.files p with
    | none =>
      have hcl0 := hcl
      rw [classifyPath_of_none hfl₁] at hcl0
      cases hfr₁ : findRemote R.files p with
      | none => rw [hfr₁] at hcl0; simp at hcl0
      | some rf => rw [hfr₁] at hcl0; split_ifs at hcl0
    | some lf =>
      have hpath := (findByPath_pathOf _ _ _ _ hfl₁).2
      have hlfc := hcl
      rw [classifyPath_of_some hfl₁] at hlfc
      cases hfr₁ : findRemote R.files lf.path with
      | none => rw [localFileClass_remote_none hfr₁] at hlfc; split_ifs at hlfc
      | some rf =>
        have hfr₁' : findRemote R.files p = some rf := by rw [← hpath]; exact hfr₁
        have hL2' : findLocal L₂.files p = some lf := by
          rw [hL2]
          unfold postLocalAt
          rw [hcl]
          exact hfl₁
        have hR2' : findRemote R₂.files p = some rf := by
          rw [hR2]
          unfold postRemoteAt
          rw [hcl]
          exact hfr₁'
        exact Or.inr (Or.inl (classify_inSync_of_bounds hL2' hR2'
          (hmemOfL lf hfl₁) (hrecL lf hfl₁) (hrecR rf hfr₁')))
  | toDownload =>
    cases hfl₁ : findLocal L.files p with
    | none =>
      have hcl0 := hcl
      rw [classifyPath_of_none hfl₁] at hcl0
      cases hfr₁ : findRemote R.files p with
      | none => rw [hfr₁] at hcl0; simp at hcl0
      | some rf =>
        have hrfpath := (findByPath_pathOf _ _ _ _ hfr₁).2
        have hL2' : findLocal L₂.files p = some (downloadedLocalFile env rf) := by
          rw [hL2]
          unfold postLocalAt
          rw [hcl]
          simp only [hfr₁, Option.map_some']
        have hR2' : findRemote R₂.files p = some rf := by
          rw [hR2]
          unfold postRemoteAt
          rw [hcl]
          exact hfr₁
        refine Or.inr (Or.inl (classify_inSync_of_bounds hL2' hR2'
          (hmemOfR rf hfr₁) ?_ (hrecR rf hfr₁)))
        have hm : (downloadedLocalFile env rf).modifiedTime
            = env.downloadMtime rf.path := rfl
        rw [hm, hrfpath, hdnmt p rf hfr₁]
        exact hrecR rf hfr₁
    | some lf =>
      have hpath := (findByPath_pathOf _ _ _ _ hfl₁).2
      have hlfc := hcl
      rw [classifyPath_of_some hfl₁] at hlfc
      cases hfr₁ : findRemote R.files lf.path with
      | none => rw [localFileClass_remote_none hfr₁] at hlfc; split_ifs at hlfc
      | some rf =>
        have hfr₁' : findRemote R.files p = some rf := by rw [← hpath]; exact hfr₁
        have hrfpath := (findByPath_pathOf _ _ _ _ hfr₁').2
        have hL2' : findLocal L₂.files p = some (downloadedLocalFile env rf) := by
          rw [hL2]
          unfold postLocalAt
          rw [hcl]
          simp only [hfr₁', Option.map_some']
        have hR2' : findRemote R₂.files p = some rf := by
          rw [hR2]
          unfold postRemoteAt
          rw [hcl]
          exact hfr₁'
        refine Or.inr (Or.inl (classify_inSync_of_bounds hL2' hR2'
          (hmemOfR rf hfr₁') ?_ (hrecR rf hfr₁')))
        have hm : (downloadedLocalFile env rf).modifiedTime
            = env.downloadMtime rf.path := rfl
        rw [hm, hrfpath, hdnmt p rf hfr₁']
        exact hrecR rf hfr₁'
  | conflict =>
    cases hfl₁ : findLocal L.files p with
    | none =>
      have hcl0 := hcl
      rw [classifyPath_of_none hfl₁] at hcl0
      cases hfr₁ : findRemote R.files p with
      | none => rw [hfr₁] at hcl0; simp at hcl0
      | some rf => rw [hfr₁] at hcl0; split_ifs at hcl0
    | some lf =>
      have hpath := (findByPath_pathOf _ _ _ _ hfl₁).2
      have hlfc := hcl
      rw [classifyPath_of_some hfl₁] at hlfc
      cases hfr₁ : findRemote R.files lf.path with
      | none => rw [localFileClass_remote_none hfr₁] at hlfc; split_ifs at hlfc
      | some rf =>
        have hfr₁' : findRemote R.files p = some rf := by rw [← hpath]; exact hfr₁
        cases haction : (resolveConflict ⟨p, lf, rf⟩ strategy).action with
        | uploadLocal =>
          have hL2' : findLocal L₂.files p = some lf := by
            rw [hL2]
            unfold postLocalAt
            rw [hcl]
            simp only [hfl₁, hfr₁']
            rw [if_pos haction]
          have hR2' : findRemote R₂.files p
              = some (uploadedRemoteFile env (some rf) lf) := by
            rw [hR2]
            unfold postRemoteAt
            rw [hcl]
            simp only [hfl₁, hfr₁']
            rw [if_pos haction]
          refine Or.inr (Or.inl (classify_inSync_of_bounds hL2' hR2'
            (hmemOfL lf hfl₁) (hrecL lf hfl₁) ?_))
          have hm : (uploadedRemoteFile env (some rf) lf).modifiedTime
              = env.uploadMtime lf.path := rfl
          rw [hm, hpath, hupmt p lf hfl₁]
          exact hrecL lf hfl₁
        | downloadRemote =>
          have hneg : ¬ (resolveConflict ⟨p, lf, rf⟩ strategy).action
              = ConflictAction.uploadLocal := by
            rw [haction]
            simp
          have hrfpath := (findByPath_pathOf _ _ _ _ hfr₁').2
          have hL2' : findLocal L₂.files p = some (downloadedLocalFile env rf) := by
            rw [hL2]
            unfold postLocalAt
            rw [hcl]
            simp only [hfl₁, hfr₁']
            rw [if_neg hneg]
          have hR2' : findRemote R₂.files p = some rf := by
            rw [hR2]
            unfold postRemoteAt
            rw [hcl]
            simp only [hfl₁, hfr₁']
            rw [if_neg hneg]
          refine Or.inr (Or.inl (classify_inSync_of_bounds hL2' hR2'
            (hmemOfR rf hfr₁') ?_ (hrecR rf hfr₁')))
          have hm : (downloadedLocalFile env rf).modifiedTime
              = env.downloadMtime rf.path := rfl
          rw [hm, hrfpath, hdnmt p rf hfr₁']
          exact hrecR rf hfr₁'
  | onlyLocal =>
    obtain ⟨⟨lf, hfl₁, hpath⟩, hfr₁⟩ := classifyPath_onlyLocal_inv hcl
    cases flag with
    | true =>
      have hL2' : findLocal L₂.files p = none := by
        rw [hL2]
        unfold postLocalAt
        rw [hcl]
        rfl
      have hR2' : findRemote R₂.files p = none := by
        rw [hR2]
        unfold postRemoteAt
        rw [hcl]
      exact Or.inl (by rw [classifyPath_of_none hL2', hR2'])
    | false =>
      have hL2' : findLocal L₂.files p = some lf := by
        rw [hL2]
        unfold postLocalAt
        rw [hcl]
        exact hfl₁
      have hR2' : findRemote R₂.files p = none := by
        rw [hR2]
        unfold postRemoteAt
        rw [hcl]
      have hs₂ := hmemOfL lf hfl₁
      refine Or.inr (Or.inr (Or.inl ⟨?_, rfl⟩))
      rw [classifyPath_of_some hL2',
        localFileClass_remote_none (by rw [hpath]; exact hR2'),
        if_pos (by rw [hpath, hs₂]; rfl)]
  | onlyRemote =>
    obtain ⟨hfl₁, ⟨rf, hfr₁, hrfpath⟩⟩ := classifyPath_onlyRemote_inv hcl
    cases flag with
    | true =>
      have hL2' : findLocal L₂.files p = none := by
        rw [hL2]
        unfold postLocalAt
        rw [hcl]
      have hR2' : findRemote R₂.files p = none := by
        rw [hR2]
        unfold postRemoteAt
        rw [hcl]
        rfl
      exact Or.inl (by rw [classifyPath_of_none hL2', hR2'])
    | false =>
      have hL2' : findLocal L₂.files p = none := by
        rw [hL2]
        unfold postLocalAt
        rw [hcl]
      have hR2' : findRemote R₂.files p = some rf := by
        rw [hR2]
        unfold postRemoteAt
        rw [hcl]
        exact hfr₁
      have hs₂ := hmemOfR rf hfr₁
      refine Or.inr (Or.inr (Or.inr ⟨?_, rfl⟩))
      rw [classifyPath_of_none hL2']
      simp only [hR2']
      rw [if_pos (by rw [hs₂]; rfl)]

/-- C5 (amended): if the transfers of a successful first `both` pass
preserve modification times (the store reports the source side's mtime for
each written copy), then a second `both` pass over the unchanged post-pass
trees produces no `toUpload`, `toDownload` or `conflicts` entries, every
path present on both sides classifies `inSync` (orphans with the delete
flag unset stay `onlyLocal`/`onlyRemote`), with the flag set the orphan
sets are empty too, and the second `sync` call performs zero upload,
download and delete actions. -/
theorem C5_second_pass (localPath : String) (L L₂ : LocalFileSet) (R R₂ : RemoteFileSet)
    (SC SC₂ : Option String) (parse parse₂ : String → Option SyncState)
    (env env₂ : DriveEnv) (now now₂ : String) (opts : SyncOptions)
    (hnl₂ : (L₂.files.map LocalFile.path).Nodup)
    (hnr₂ : (R₂.files.map RemoteFile.path).Nodup)
    (hpostL : ∀ p, findLocal L₂.files p = postLocalAt L R (loadSyncState SC parse).files
        opts.conflictResolution opts.deleteOrphans env p)
    (hpostR : ∀ p, findRemote R₂.files p = postRemoteAt L R (loadSyncState SC parse).files
        opts.conflictResolution opts.deleteOrphans env p)
    (hstate₂ : loadSyncState SC₂ parse₂ = buildSyncState L R now)
    (hupmt : ∀ p lf, findLocal L.files p = some lf → env.uploadMtime p = lf.modifiedTime)
    (hdnmt : ∀ p rf, findRemote R.files p = some rf →
        env.downloadMtime p = rf.modifiedTime) :
    (compareFileSets L₂ R₂ (buildSyncState L R now)).toUpload = []
    ∧ (compareFileSets L₂ R₂ (buildSyncState L R now)).toDownload = []
    ∧ (compareFileSets L₂ R₂ (buildSyncState L R now)).conflicts = []
    ∧ (∀ p, (findLocal L₂.files p).isSome → (findRemote R₂.files p).isSome →
        classifyPath L₂.files R₂.files (buildSyncState L R now).files p = .inSync)
    ∧ (opts.deleteOrphans = true →
        (compareFileSets L₂ R₂ (buildSyncState L R now)).onlyLocal = []
        ∧ (compareFileSets L₂ R₂ (buildSyncState L R now)).onlyRemote = [])
    ∧ (∀ o, sync localPath true L₂ R₂ SC₂ parse₂ env₂ now₂ opts = .ok o →
        o.results.uploaded = [] ∧ o.results.downloaded = []
        ∧ o.results.deletedLocal = [] ∧ o.results.deletedRemote = []) := by
  have master := postPass_classify L R (loadSyncState SC parse).files
    opts.conflictResolution opts.deleteOrphans env now L₂ R₂ hpostL hpostR hupmt hdnmt
  have hU : (compareFileSets L₂ R₂ (buildSyncState L R now)).toUpload = [] := by
    have hmap : (compareFileSets L₂ R₂ (buildSyncState L R now)).toUpload.map
        LocalFile.path = [] := by
      apply List.eq_nil_iff_forall_not_mem.mpr
      intro q hq
      have hc := (mem_path_toUpload_iff L₂ R₂ _ q hnl₂).mp hq
      rcases master q with h | h | ⟨h, _⟩ | ⟨h, _⟩ <;> rw [hc] at h <;> simp at h
    exact List.map_eq_nil_iff.mp hmap
  have hD : (compareFileSets L₂ R₂ (buildSyncState L R now)).toDownload = [] := by
    have hmap : (compareFileSets L₂ R₂ (buildSyncState L R now)).toDownload.map
        RemoteFile.path = [] := by
      apply List.eq_nil_iff_forall_not_mem.mpr
      intro q hq
      have hc := (mem_path_toDownload_iff L₂ R₂ _ q hnl₂ hnr₂).mp hq
      rcases master q with h | h | ⟨h, _⟩ | ⟨h, _⟩ <;> rw [hc] at h <;> simp at h
    exact List.map_eq_nil_iff.mp hmap
  have hC : (compareFileSets L₂ R₂ (buildSyncState L R now)).conflicts = [] := by
    have hmap : (compareFileSets L₂ R₂ (buildSyncState L R now)).conflicts.map
        ConflictEntry.path = [] := by
      apply List.eq_nil_iff_forall_not_mem.mpr
      intro q hq
      have hc := (mem_path_conflicts_iff L₂ R₂ _ q hnl₂).mp hq
      rcases master q with h | h | ⟨h, _⟩ | ⟨h, _⟩ <;> rw [hc] at h <;> simp at h
    exact List.map_eq_nil_iff.mp hmap
  have hBoth : ∀ p, (findLocal L₂.files p).isSome → (findRemote R₂.files p).isSome →
      classifyPath L₂.files R₂.files (buildSyncState L R now).files p = .inSync := by
    intro p h1 h2
    rcases master p with h | h | ⟨h, _⟩ | ⟨h, _⟩
    · obtain ⟨ha, _⟩ := classifyPath_absent_inv h
      rw [ha] at h1
      simp at h1
    · exact h
    · obtain ⟨_, hb⟩ := classifyPath_onlyLocal_inv h
      rw [hb] at h2
      simp at h2
    · obtain ⟨ha, _⟩ := classifyPath_onlyRemote_inv h
      rw [ha] at h1
      simp at h1
  have hOrphans : opts.deleteOrphans = true →
      (compareFileSets L₂ R₂ (buildSyncState L R now)).onlyLocal = []
      ∧ (compareFileSets L₂ R₂ (buildSyncState L R now)).onlyRemote = [] := by
    intro hflag
    constructor
    · have hmap : (compareFileSets L₂ R₂ (buildSyncState L R now)).onlyLocal.map
          LocalFile.path = [] := by
        apply List.eq_nil_iff_forall_not_mem.mpr
        intro q hq
        have hc := (mem_path_onlyLocal_iff L₂ R₂ _ q hnl₂).mp hq
        rcases master q with h | h | ⟨h, hf⟩ | ⟨h, hf⟩
        · rw [hc] at h; simp at h
        · rw [hc] at h; simp at h
        · rw [hflag] at hf; simp at hf
        · rw [hflag] at hf; simp at hf
      exact List.map_eq_nil_iff.mp hmap
    · have hmap : (compareFileSets L₂ R₂ (buildSyncState L R now)).onlyRemote.map
          RemoteFile.path = [] := by
        apply List.eq_nil_iff_forall_not_mem.mpr
        intro q hq
        have hc := (mem_path_onlyRemote_iff L₂ R₂ _ q hnr₂).mp hq
        rcases master q with h | h | ⟨h, hf⟩ | ⟨h, hf⟩
        · rw [hc] at h; simp at h
        · rw [hc] at h; simp at h
        · rw [hflag] at hf; simp at hf
        · rw [hflag] at hf; simp at hf
      exact List.map_eq_nil_iff.mp hmap
  refine ⟨hU, hD, hC, hBoth, hOrphans, ?_⟩
  intro o ho
  unfold sync at ho
  rw [if_neg (by simp)] at ho
  simp only [] at ho
  rw [Except.ok.injEq] at ho
  subst ho
  refine ⟨?_, ?_, ?_, ?_⟩
  · show (if opts.direction = "up" ∨ opts.direction = "both" then
        runActions opts.dryRun env₂.uploadFails env₂.errMsg "upload" (fun f => f.path)
          Effect.upload (compareFileSets L₂ R₂ (loadSyncState SC₂ parse₂)).toUpload
      else ⟨[], [], []⟩).done = []
    rw [hstate₂, hU]
    split_ifs <;> rfl
  · show (if opts.direction = "down" ∨ opts.direction = "both" then
        runActions opts.dryRun env₂.downloadFails env₂.errMsg "download" (fun f => f.path)
          Effect.download (compareFileSets L₂ R₂ (loadSyncState SC₂ parse₂)).toDownload
      else ⟨[], [], []⟩).done = []
    rw [hstate₂, hD]
    split_ifs <;> rfl
  · show (if (opts.direction = "down" ∨ opts.direction = "both") ∧ opts.deleteOrphans then
        runActions opts.dryRun env₂.deleteLocalFails env₂.errMsg "delete-local"
          (fun f => f.path) Effect.deleteLocal
          (compareFileSets L₂ R₂ (loadSyncState SC₂ parse₂)).onlyLocal
      else ⟨[], [], []⟩).done = []
    rw [hstate₂]
    split_ifs with hcnd
    · rw [(hOrphans hcnd.2).1]
      rfl
    · rfl
  · show (if (opts.direction = "up" ∨ opts.direction = "both") ∧ opts.deleteOrphans then
        runActions opts.dryRun env₂.deleteRemoteFails env₂.errMsg "delete-remote"
          (fun f => f.path) Effect.deleteRemote
          (compareFileSets L₂ R₂ (loadSyncState SC₂ parse₂)).onlyRemote
      else ⟨[], [], []⟩).done = []
    rw [hstate₂]
    split_ifs with hcnd
    · rw [(hOrphans hcnd.2).2]
      rfl
    · rfl

/-- The pass-1 local tree of the C5 witness: one new file. -/
def c5wLocal : LocalFileSet := ⟨[⟨"f.txt", "f.txt", 1, 5000⟩], []⟩

/-- An all-success environment whose store preserves the uploaded mtime. -/
def c5wEnv : DriveEnv := { allOkEnv with uploadMtime := fun _ => 5000 }

/-- The remote tree after the witness pass uploaded `f.txt`. -/
def c5wRemote2 : RemoteFileSet :=
  ⟨[uploadedRemoteFile c5wEnv none ⟨"f.txt", "f.txt", 1, 5000⟩], []⟩

/-- `JSON.parse` of the sidecar written by the witness's first pass. -/
def c5wParse2 : String → Option SyncState :=
  fun _ => some (buildSyncState c5wLocal ⟨[], []⟩ "T")

/-- The `uploaded` count of a pass, 0 for an aborted pass. -/
def uploadedCountOf : Except String SyncOutcome → Nat
  | .ok o => o.results.uploaded.length
  | .error _ => 0

/-- C5 witness: with a store that preserves the uploaded timestamp, the
second pass over the one-file scenario classifies everything `inSync` and
performs zero actions. -/
theorem C5_witness :
    (compareFileSets c5wLocal c5wRemote2 (buildSyncState c5wLocal ⟨[], []⟩ "T")).toUpload = []
    ∧ (compareFileSets c5wLocal c5wRemote2
        (buildSyncState c5wLocal ⟨[], []⟩ "T")).toDownload = []
    ∧ (compareFileSets c5wLocal c5wRemote2
        (buildSyncState c5wLocal ⟨[], []⟩ "T")).conflicts = []
    ∧ classifyPath c5wLocal.files c5wRemote2.files
        (buildSyncState c5wLocal ⟨[], []⟩ "T").files "f.txt" = .inSync
    ∧ uploadedCountOf (sync "/w2" true c5wLocal c5wRemote2 (some "x") c5wParse2 allOkEnv
        "T2" ⟨"both", false, false, [], "newer"⟩) = 0
    ∧ downloadedCountOf (sync "/w2" true c5wLocal c5wRemote2 (some "x") c5wParse2 allOkEnv
        "T2" ⟨"both", false, false, [], "newer"⟩) = 0 := by
  have hpostL : ∀ p, findLocal c5wLocal.files p
      = postLocalAt c5wLocal ⟨[], []⟩ (loadSyncState none failingParse).files
        "newer" false c5wEnv p := by
    intro p
    by_cases hp : ("f.txt" : String) = p
    · subst hp
      rfl
    · have hbe : (("f.txt" : String) == p) = false := beq_eq_false_iff_ne.mpr hp
      simp [c5wLocal, postLocalAt, classifyPath, findLocal, findRemote, findByPath,
        List.find?, loadSyncState, failingParse, hbe]
  have hpostR : ∀ p, findRemote c5wRemote2.files p
      = postRemoteAt c5wLocal ⟨[], []⟩ (loadSyncState none failingParse).files
        "newer" false c5wEnv p := by
    intro p
    by_cases hp : ("f.txt" : String) = p
    · subst hp
      rfl
    · have hbe : (("f.txt" : String) == p) = false := beq_eq_false_iff_ne.mpr hp
      simp [c5wLocal, c5wRemote2, uploadedRemoteFile, c5wEnv, allOkEnv, postRemoteAt,
        classifyPath, findLocal, findRemote, findByPath, List.find?, loadSyncState,
        failingParse, hbe]
  have hupmt : ∀ p lf, findLocal c5wLocal.files p = some lf →
      c5wEnv.uploadMtime p = lf.modifiedTime := by
    intro p lf h
    obtain ⟨hm, _⟩ := findByPath_pathOf _ _ _ _ h
    simp only [c5wLocal, List.mem_singleton] at hm
    subst hm
    rfl
  have hdnmt : ∀ p rf, findRemote (⟨[], []⟩ : RemoteFileSet).files p = some rf →
      c5wEnv.downloadMtime p = rf.modifiedTime := by
    intro p rf h
    exact Option.noConfusion h
  have h := C5_second_pass "/w2" c5wLocal c5wLocal ⟨[], []⟩ c5wRemote2 none (some "x")
    failingParse c5wParse2 c5wEnv allOkEnv "T" "T2" ⟨"both", false, false, [], "newer"⟩
    (by decide) (by decide) hpostL hpostR rfl hupmt hdnmt
  obtain ⟨o, ho⟩ : ∃ o, sync "/w2" true c5wLocal c5wRemote2 (some "x") c5wParse2 allOkEnv
      "T2" (⟨"both", false, false, [], "newer"⟩ : SyncOptions) = .ok o := by
    unfold sync
    rw [if_neg (by simp)]
    exact ⟨_, rfl⟩
  obtain ⟨hu0, hd0, _, _⟩ := h.2.2.2.2.2 o ho
  refine ⟨h.1, h.2.1, h.2.2.1, h.2.2.2.1 "f.txt" (by decide) (by decide), ?_, ?_⟩
  · rw [ho]
    simp [uploadedCountOf, hu0]
  · rw [ho]
    simp [downloadedCountOf, hd0]

end GDriveSync
